import Mathlib

/-!
Verification of the KingShot minister-scheduler engine.

The definitions below are a shallow embedding of the JavaScript sources
(`src/calculator.js`, `src/parse.js`, and the Map-based CSV parser in the
unnamed source file).  JavaScript numbers are modelled as rationals,
JavaScript objects used as string-keyed flag maps are modelled as functions
from `String` to `Bool` (a missing key reads as `false`, matching the
falsiness of `undefined`), and in-place mutation is modelled by explicit
state passing.  The structure field `stop` models the source field `end`,
which is a reserved word in Lean.
-/

set_option maxRecDepth 10000

attribute [local semireducible] Rat.add Rat.sub Rat.mul Rat.inv Rat.ofScientific

namespace KS

/-- Two-digit zero padding, as `String(n).padStart(2, '0')` behaves for the
hour and minute values that arise here. -/
def pad2 (n : Nat) : String :=
  if n < 10 then "0" ++ toString n else toString n

/-- Splits a character list at every occurrence of the separator, like
`String.prototype.split` with a single-character separator. -/
def splitOnChar (sep : Char) : List Char → List (List Char)
  | [] => [[]]
  | c :: cs =>
    let rest := splitOnChar sep cs
    if c = sep then [] :: rest
    else
      match rest with
      | [] => [[c]]
      | g :: gs => (c :: g) :: gs

/-- Numeric value of a digit string. -/
def digitsVal (l : List Char) : Nat :=
  l.foldl (fun a c => a * 10 + (c.toNat - 48)) 0

/-- `Number(str)` restricted to non-empty all-digit strings; `none` models
`NaN`.  `Number("")` is `0` in JavaScript, hence the empty-list case. -/
def jsDigits (l : List Char) : Option Nat :=
  if l = [] then some 0
  else if l.all Char.isDigit then some (digitsVal l) else none

/-- `timeToMinutes` from the sources: `time.split(':')` and `h * 60 + m`.
Every caller in the embedding passes a zero-padded `"HH:MM"` string, for
which this agrees with the JavaScript function; malformed strings (which
would yield `NaN` in JavaScript) are mapped to `0`. -/
def timeToMinutes (s : String) : Nat :=
  match splitOnChar ':' s.toList with
  | [hs, ms] =>
    match jsDigits hs, jsDigits ms with
    | some h, some m => h * 60 + m
    | _, _ => 0
  | _ => 0

/-- A `{start, end}` time-range object (`end` is rendered as `stop`). -/
structure TimeRange where
  start : String
  stop : String
deriving DecidableEq, Repr

/-- `generateTimeSlots` from `src/calculator.js` (lines 648-661), including
the hour-carry expression `hour + Math.floor((minute + 30) / 60)` exactly as
written there. -/
def generateTimeSlots : List TimeRange :=
  (List.range 24).flatMap fun hour =>
    [0, 30].map fun minute =>
      let start := pad2 hour ++ ":" ++ pad2 minute
      let endHour := hour + (minute + 30) / 60
      let endMinute := minute + 10
      let endMin := endMinute % 60
      { start := start, stop := pad2 (endHour % 24) ++ ":" ++ pad2 endMin }

/-- A roster member (`PlayerObject`), after CSV parsing: the numeric fields
are rationals, the availability is the parsed range list. -/
structure Player where
  alliance : String
  player : String
  generalSpeedups : ℚ
  generalUsedFor : String
  soldierTraining : ℚ
  construction : ℚ
  research : ℚ
  truegoldPieces : ℚ
  availableTimeRanges : List TimeRange
deriving DecidableEq, Repr

/-- `getTotalAvailableMinutes` from `src/calculator.js`. -/
def getTotalAvailableMinutes (p : Player) : Nat :=
  p.availableTimeRanges.foldl
    (fun sum r =>
      let s := timeToMinutes r.start
      let e := timeToMinutes r.stop
      let e2 := if e < s then e + 1440 else e
      sum + (e2 - s))
    0

/-- `getAllSpeedupsSum` from `src/calculator.js`. -/
def getAllSpeedupsSum (p : Player) : ℚ :=
  p.soldierTraining + p.construction + p.research

/-- `isSlotAvailable` from `src/calculator.js` (lines 681-723).  The
overlap `Math.max(0, overlapEnd - overlapStart)` is truncated natural
subtraction. -/
def isSlotAvailable (p : Player) (slotStart slotEnd : String) : Bool :=
  let slotStartMin := timeToMinutes slotStart
  let slotEndMin := timeToMinutes slotEnd
  match p.availableTimeRanges with
  | [] => true
  | r0 :: rs =>
    let overallStart := rs.foldl (fun a r => min a (timeToMinutes r.start)) (timeToMinutes r0.start)
    let overallEnd := rs.foldl (fun a r => max a (timeToMinutes r.stop)) (timeToMinutes r0.stop)
    let adjustedSlotEndMin := if slotEndMin < slotStartMin then slotEndMin + 1440 else slotEndMin
    let adjustedOverallEnd := if overallEnd < overallStart then overallEnd + 1440 else overallEnd
    if slotStartMin < overallStart then false
    else if adjustedOverallEnd < adjustedSlotEndMin then false
    else if slotEndMin < slotStartMin then true
    else
      let totalOverlap := (r0 :: rs).foldl
        (fun acc r =>
          acc + (min slotEndMin (timeToMinutes r.stop) - max slotStartMin (timeToMinutes r.start)))
        0
      decide (10 ≤ totalOverlap)

/-- Midnight adjustment used both for the slot and for the overall window:
an end numerically before its start is pushed past midnight. -/
def adjustClock (s e : Nat) : Nat :=
  if e < s then e + 1440 else e

/-- Stable insertion used to model JavaScript's stable `Array.prototype.sort`:
`le x y` states that `x` may stay before `y`. -/
def insertOrd {α : Type} (le : α → α → Bool) (x : α) : List α → List α
  | [] => [x]
  | y :: ys => if le x y then x :: y :: ys else y :: insertOrd le x ys

/-- Stable sort (insertion sort).  JavaScript's `sort` is required to be
stable, so any stable sorting algorithm with the same comparator produces
the same array. -/
def sortOrd {α : Type} (le : α → α → Bool) : List α → List α
  | [] => []
  | x :: xs => insertOrd le x (sortOrd le xs)

/-- A `{player, slot}` pairing accumulated by the assignment passes. -/
structure PlayerSlot where
  player : Player
  slot : TimeRange
deriving DecidableEq, Repr

/-- `assignFirstPass` from `src/calculator.js` (lines 151-168): sorts the
pending players by total available minutes ascending (stable) and hands
each player in that order the first slot whose start is not yet claimed in
the accumulator and which `isSlotAvailable` accepts.  Returns the grown
`assignedPlayerSlots` accumulator and the players left unscheduled. -/
def afpStep (slots : List TimeRange) (acc : List PlayerSlot × List Player)
    (candidate : Player) : List PlayerSlot × List Player :=
  match slots.find? (fun s =>
      !(acc.1.any fun ap => decide (ap.slot.start = s.start)) &&
      isSlotAvailable candidate s.start s.stop) with
  | some slot => (acc.1 ++ [⟨candidate, slot⟩], acc.2)
  | none => (acc.1, acc.2 ++ [candidate])

def assignFirstPass (unscheduled : List Player) (slots : List TimeRange)
    (assignedPlayerSlots : List PlayerSlot) : List PlayerSlot × List Player :=
  let sorted := sortOrd
    (fun a b => decide (getTotalAvailableMinutes a ≤ getTotalAvailableMinutes b)) unscheduled
  sorted.foldl (afpStep slots) (assignedPlayerSlots, [])

/-- Inner scan of `performDisplacement`: tracks the assigned entry with the
lowest evaluator value among those whose slot the candidate could also fill
(the first index attaining the minimum wins, via the strict `<` update of
the source). -/
def bestTargetAux (ev : Player → ℚ) (c : Player) :
    List PlayerSlot → Nat → Option (Nat × ℚ) → Option (Nat × ℚ)
  | [], _, best => best
  | a :: rest, j, none =>
    if isSlotAvailable c a.slot.start a.slot.stop then
      bestTargetAux ev c rest (j + 1) (some (j, ev a.player))
    else bestTargetAux ev c rest (j + 1) none
  | a :: rest, j, some jv =>
    if isSlotAvailable c a.slot.start a.slot.stop then
      if ev a.player < jv.2 then bestTargetAux ev c rest (j + 1) (some (j, ev a.player))
      else bestTargetAux ev c rest (j + 1) (some jv)
    else bestTargetAux ev c rest (j + 1) (some jv)

/-- The displacement-target search of `performDisplacement` (lines 206-219). -/
def bestTarget (ev : Player → ℚ) (c : Player) (asg : List PlayerSlot) : Option (Nat × ℚ) :=
  bestTargetAux ev c asg 0 none

/-- The candidate scan of one `performDisplacement` round (lines 202-236):
the first pending candidate (in the sorted order) whose value strictly
exceeds its best target's value is returned together with the pending list
without it and the target index; `none` when a full scan finds no swap. -/
def findSwap (ev : Player → ℚ) (asg : List PlayerSlot) :
    List Player → Option (Player × List Player × Nat)
  | [] => none
  | c :: cs =>
    match bestTarget ev c asg with
    | some jv =>
      if jv.2 < ev c then some (c, cs, jv.1)
      else
        match findSwap ev asg cs with
        | none => none
        | some r => some (r.1, c :: r.2.1, r.2.2)
    | none =>
      match findSwap ev asg cs with
      | none => none
      | some r => some (r.1, c :: r.2.1, r.2.2)

/-- The while-loop of `performDisplacement`: each round re-sorts the pending
list by evaluator descending (stable), performs the first available
displacement (the displaced player is pushed to the back of the pending
list) and restarts; it exits when the pending list is empty or a full scan
performs no swap.  `fuel` bounds the rounds; `performDisplacement` supplies
enough fuel for the loop to reach its fixpoint (theorem C7). -/
def runDisp (ev : Player → ℚ) :
    Nat → List Player → List PlayerSlot → List Player × List PlayerSlot
  | 0, uns, asg => (uns, asg)
  | fuel + 1, uns, asg =>
    if uns = [] then (uns, asg)
    else
      let sorted := sortOrd (fun a b => decide (ev b ≤ ev a)) uns
      match findSwap ev asg sorted with
      | none => (sorted, asg)
      | some (c, rest, j) =>
        match asg[j]? with
        | none => (sorted, asg)
        | some target => runDisp ev fuel (rest ++ [target.player]) (asg.set j ⟨c, target.slot⟩)

/-- Count of (assigned, pending) pairs in which the pending player's value
strictly exceeds the assigned player's value.  Every swap strictly
decreases it, which bounds the number of displacement rounds. -/
def invMeasure (ev : Player → ℚ) (uns : List Player) (asg : List PlayerSlot) : Nat :=
  (asg.map fun a => (uns.filter fun u => decide (ev a.player < ev u)).length).sum

/-- `performDisplacement` from `src/calculator.js` (lines 193-239): run the
displacement loop to its fixpoint and return the final (pending, assigned)
lists.  The displacement log returned by the source is only for caller
inspection and is not modelled; all callers use the mutated lists. -/
def performDisplacement (unscheduled : List Player) (assignedPlayerSlots : List PlayerSlot)
    (evaluator : Player → ℚ) : List Player × List PlayerSlot :=
  runDisp evaluator (invMeasure evaluator unscheduled assignedPlayerSlots + 1)
    unscheduled assignedPlayerSlots

end KS

section DispScratch

open KS

private def scrP (nm : String) (v : ℚ) : Player :=
  { alliance := "A", player := nm, generalSpeedups := 0, generalUsedFor := "",
    soldierTraining := 0, construction := v, research := 0, truegoldPieces := 0,
    availableTimeRanges := [] }

private def scrSlot : TimeRange := { start := "00:00", stop := "00:10" }

end DispScratch

/-- Multiset form of `invMeasure`, used to show each displacement swap
strictly decreases the measure. -/
def invCountM (U A : Multiset ℚ) : Nat :=
  (A.map fun x => (U.filter (fun y => x < y)).card).sum

namespace Parse

open KS

/-- Whitespace, for the characters of the regex class `\s` that can occur
in availability strings. -/
def isWs (c : Char) : Bool :=
  c = ' ' || c = '\t' || c = '\n' || c = '\r'

/-- Case-insensitive keyword match at the head of the input; returns the
remainder on success.  The pattern is given in lower case. -/
def matchWord : List Char → List Char → Option (List Char)
  | [], rest => some rest
  | _, [] => none
  | w :: ws, x :: xs => if x.toLower = w then matchWord ws xs else none

/-- One alternative of the noise-word regex
`at|from|between|start(ing)?|end(ing)?|hours|avail(ability)?|free|can\s+play`
matched at the head of the input, alternatives tried in source order with
the optional suffixes preferred (regex greediness). -/
def matchNoise (l : List Char) : Option (List Char) :=
  match matchWord "at".toList l with
  | some r => some r
  | none =>
  match matchWord "from".toList l with
  | some r => some r
  | none =>
  match matchWord "between".toList l with
  | some r => some r
  | none =>
  match matchWord "starting".toList l with
  | some r => some r
  | none =>
  match matchWord "start".toList l with
  | some r => some r
  | none =>
  match matchWord "ending".toList l with
  | some r => some r
  | none =>
  match matchWord "end".toList l with
  | some r => some r
  | none =>
  match matchWord "hours".toList l with
  | some r => some r
  | none =>
  match matchWord "availability".toList l with
  | some r => some r
  | none =>
  match matchWord "avail".toList l with
  | some r => some r
  | none =>
  match matchWord "free".toList l with
  | some r => some r
  | none =>
  match matchWord "can".toList l with
  | some r =>
    let rest := r.dropWhile isWs
    if rest.length = r.length then none
    else matchWord "play".toList rest
  | none => none

/-- The noise-word removal `cleaned = allTimes.replace(noiseRegex, '')`:
scan left to right, drop each noise match together with its trailing
whitespace, copy other characters.  The fuel equals the input length; each
step consumes at least one character, so it never runs out. -/
def removeNoiseAux : Nat → List Char → List Char
  | 0, l => l
  | _ + 1, [] => []
  | fuel + 1, c :: cs =>
    match matchNoise (c :: cs) with
    | some rest => removeNoiseAux fuel (rest.dropWhile isWs)
    | none => c :: removeNoiseAux fuel cs

def removeNoise (l : List Char) : List Char :=
  removeNoiseAux l.length l

/-- One match of `TIME_PATTERN` `(\d{1,2})(?::(\d{2}))?(?:am|pm|AM|PM)?` at
a position whose character is a digit: one or two digits (greedy), then an
optional colon followed by exactly two digits, then an optional am/pm in
any case.  Returns the matched characters and the remainder. -/
def takeTimeTok : List Char → List Char × List Char
  | [] => ([], [])
  | d1 :: rest =>
    let dsr :=
      match rest with
      | d2 :: r2 => if d2.isDigit then ([d1, d2], r2) else ([d1], rest)
      | [] => ([d1], ([] : List Char))
    let cpr :=
      match dsr.2 with
      | ':' :: a :: b :: r3 =>
        if a.isDigit && b.isDigit then ([':', a, b], r3) else (([] : List Char), dsr.2)
      | _ => (([] : List Char), dsr.2)
    let apr :=
      match cpr.2 with
      | x :: y :: r4 =>
        if (x.toLower = 'a' || x.toLower = 'p') && y.toLower = 'm' then ([x, y], r4)
        else (([] : List Char), cpr.2)
      | _ => (([] : List Char), cpr.2)
    (dsr.1 ++ cpr.1 ++ apr.1, apr.2)

/-- The `exec` loop over `TIME_PATTERN` with the `g` flag: find successive
matches left to right, each recorded with its index.  The fuel equals the
input length plus one; each step consumes at least one character. -/
def scanTimeTokensAux : Nat → Nat → List Char → List (Nat × List Char)
  | 0, _, _ => []
  | _ + 1, _, [] => []
  | fuel + 1, i, c :: cs =>
    if c.isDigit then
      let tr := takeTimeTok (c :: cs)
      (i, tr.1) :: scanTimeTokensAux fuel (i + tr.1.length) tr.2
    else scanTimeTokensAux fuel (i + 1) cs

def scanTimeTokens (l : List Char) : List (Nat × List Char) :=
  scanTimeTokensAux (l.length + 1) 0 l

/-- `extractTimeWithAmPm` from `src/parse.js`: re-matches the token, takes
`h` from the leading one-or-two digits and `m` from the optional `:MM`
group.  The am/pm group of the source regex is non-capturing, so `match[3]`
is always `undefined` and the am/pm adjustment never fires.  Hour 24 is
treated as midnight; hour and minute are clamped to 0-23 and 0-59. -/
def extractTimeWithAmPm (tok : List Char) : Option String :=
  match tok with
  | [] => none
  | c0 :: rest0 =>
    if ¬ c0.isDigit then none
    else
      let dsr :=
        match rest0 with
        | c1 :: r1 => if c1.isDigit then ([c0, c1], r1) else ([c0], rest0)
        | [] => ([c0], ([] : List Char))
      let m :=
        match dsr.2 with
        | ':' :: a :: b :: _ => if a.isDigit && b.isDigit then digitsVal [a, b] else 0
        | _ => 0
      let h0 := digitsVal dsr.1
      let h1 := if h0 = 24 then 0 else h0
      let h2 := min h1 23
      let m2 := min m 59
      some (pad2 h2 ++ ":" ++ pad2 m2)

/-- Dash characters of the range-delimiter regex `[-–—]`. -/
def isDashChar (c : Char) : Bool :=
  c = '-' || c = '–' || c = '—'

/-- One of the delimiter words `to|till|until|through|thru` at the head of
the input (case-insensitive). -/
def hasDelimWord (l : List Char) : Bool :=
  (matchWord "to".toList l).isSome || (matchWord "till".toList l).isSome ||
  (matchWord "until".toList l).isSome || (matchWord "through".toList l).isSome ||
  (matchWord "thru".toList l).isSome

/-- Whether `RANGE_DELIMITER.exec(textBetween)` finds a match: the text
contains a dash character or a delimiter word. -/
def containsRangeDelimiter : List Char → Bool
  | [] => false
  | c :: cs => isDashChar c || hasDelimWord (c :: cs) || containsRangeDelimiter cs

/-- `addRangeIfValid` from `src/parse.js` (lines 192-212): a degenerate
range is dropped, a within-day range is pushed as is, an overnight range is
split at midnight with no second half when the end is exactly 00:00. -/
def addRangeIfValid (ranges : List TimeRange) (start stop : String) : List TimeRange :=
  let startMin := timeToMinutes start
  let endMin := timeToMinutes stop
  if startMin = endMin then ranges
  else if startMin < endMin then ranges ++ [⟨start, stop⟩]
  else
    let pushed := ranges ++ [⟨start, "23:59"⟩]
    if stop ≠ "00:00" then pushed ++ [⟨"00:00", stop⟩] else pushed

/-- A recognized time token: its index in the cleaned string, its matched
characters and its normalized `"HH:MM"` form. -/
structure TimeMatch where
  idx : Nat
  chars : List Char
  normalized : String
deriving DecidableEq, Repr

/-- Hour component of a normalized `"HH:MM"` string, as
`parseInt(startTime.split(':')[0], 10)`. -/
def hourOf (s : String) : Nat :=
  (jsDigits ((splitOnChar ':' s.toList).headD [])).getD 0

/-- The single-hour fallback of the main loop: an isolated time token
becomes an hour-long range starting at that time, wrapping 23 to 0. -/
def singleHourAdd (ranges : List TimeRange) (tm : TimeMatch) : List TimeRange :=
  let hour := hourOf tm.normalized
  let endHour := (hour + 1) % 24
  addRangeIfValid ranges tm.normalized (pad2 endHour ++ ":00")

/-- The token-pairing loop of `parseTimeRanges`: when a range delimiter
separates two consecutive tokens they form a range (both consumed),
otherwise the first token alone becomes a one-hour range. -/
def parseLoop (cleaned : List Char) : List TimeMatch → List TimeRange → List TimeRange
  | [], ranges => ranges
  | [tm], ranges => singleHourAdd ranges tm
  | tm :: tm2 :: rest, ranges =>
    let startEndIndex := tm.idx + tm.chars.length
    let textBetween := (cleaned.drop startEndIndex).take (tm2.idx - startEndIndex)
    if containsRangeDelimiter textBetween then
      parseLoop cleaned rest (addRangeIfValid ranges tm.normalized tm2.normalized)
    else
      parseLoop cleaned (tm2 :: rest) (singleHourAdd ranges tm)

/-- `parseTimeRanges`, generic in the token normalizer so that the variant
of the Map-based CSV parser (which uses the multi-format
`extractTimeWithAmPm`) can share the scanning pipeline. -/
def parseTimeRangesWith (extract : List Char → Option String) (allTimes : String) :
    List TimeRange :=
  if allTimes = "" then []
  else
    let cleaned := removeNoise allTimes.toList
    let timeMatches := (scanTimeTokens cleaned).filterMap fun it =>
      (extract it.2).map fun n => TimeMatch.mk it.1 it.2 n
    if timeMatches.isEmpty then []
    else parseLoop cleaned timeMatches []

/-- `parseTimeRanges` from `src/parse.js` (lines 116-183). -/
def parseTimeRanges (allTimes : String) : List TimeRange :=
  parseTimeRangesWith extractTimeWithAmPm allTimes

end Parse

namespace KS

/-- Division of rationals, written through `Rat.divInt` (the theorem
`ratDiv_eq` below identifies it with field division; the field-division
term itself does not reduce in the kernel, this form does). -/
def ratDiv (a b : ℚ) : ℚ := Rat.divInt (a.num * b.den) (a.den * b.num)

/-- `Math.round`: round half toward positive infinity, which on rationals
is the floor of `x + 1/2`.  This matches JavaScript on all inputs,
including negative halves.  See `jsRound_eq`. -/
def jsRound (q : ℚ) : ℤ := ⌊q + Rat.divInt 1 2⌋

/-- The `speedups` field of an appointment: ministers store a formatted
string, advisors store a rounded number. -/
inductive SpeedupVal
  | str (s : String)
  | num (n : ℤ)
deriving DecidableEq, Repr

/-- An appointment record.  `rawSpeedup` and `rawSpeedupSum` mirror the
extra fields set by some creation sites; sites that do not set them leave
`none`. -/
structure Appointment where
  start : String
  stop : String
  alliance : String
  player : String
  speedups : SpeedupVal
  truegold : ℚ
  rawSpeedup : Option ℚ
  rawSpeedupSum : Option ℚ
deriving DecidableEq, Repr

/-- A waiting-list entry: identity, rounded speedups, rounded truegold and
the rendered time ranges. -/
structure WaitingPlayer where
  alliance : String
  player : String
  soldier : ℤ
  construction : ℤ
  research : ℤ
  truegold : ℤ
  timeSlots : String
deriving DecidableEq, Repr

/-- The flag-map key `${player}-${alliance}`. -/
def playerId (p : Player) : String := p.player ++ "-" ++ p.alliance

/-- The waiting-list deduplication key `${alliance}/${player}`. -/
def waitingKey (w : WaitingPlayer) : String := w.alliance ++ "/" ++ w.player

/-- Which of the three assignment-flag maps a pass writes
(`constructionAssignments`, `researchAssignments`,
`trainingAssignments`). -/
inductive FlagKind
  | construction
  | research
  | training
deriving DecidableEq, Repr

/-- The scheduler state mutated by `calculateScheduleData`: the per-day
minister and advisor appointment lists and the three assignment-flag maps
(JavaScript objects keyed by `playerId`; a missing key reads `false`). -/
structure SState where
  ministers : Nat → List Appointment
  advisors : Nat → List Appointment
  constructionAssignments : String → Bool
  researchAssignments : String → Bool
  trainingAssignments : String → Bool

def SState.getFlag (st : SState) (k : FlagKind) (pid : String) : Bool :=
  match k with
  | .construction => st.constructionAssignments pid
  | .research => st.researchAssignments pid
  | .training => st.trainingAssignments pid

def SState.setFlag (st : SState) (k : FlagKind) (pid : String) (b : Bool) : SState :=
  match k with
  | .construction =>
    { st with constructionAssignments :=
        fun x => if x = pid then b else st.constructionAssignments x }
  | .research =>
    { st with researchAssignments :=
        fun x => if x = pid then b else st.researchAssignments x }
  | .training =>
    { st with trainingAssignments :=
        fun x => if x = pid then b else st.trainingAssignments x }

def SState.pushMinister (st : SState) (day : Nat) (app : Appointment) : SState :=
  { st with ministers := fun d => if d = day then st.ministers d ++ [app] else st.ministers d }

def SState.pushAdvisor (st : SState) (day : Nat) (app : Appointment) : SState :=
  { st with advisors := fun d => if d = day then st.advisors d ++ [app] else st.advisors d }

/-- The waiting-list snapshot pushed for an unassigned player: rounded
speedups and the joined time ranges with the `No available ranges`
fallback for an empty join. -/
def toWaitingPlayer (p : Player) : WaitingPlayer :=
  let s := String.intercalate ", "
    (p.availableTimeRanges.map fun r => r.start ++ "-" ++ r.stop)
  { alliance := p.alliance, player := p.player,
    soldier := jsRound p.soldierTraining, construction := jsRound p.construction,
    research := jsRound p.research, truegold := jsRound p.truegoldPieces,
    timeSlots := if s = "" then "No available ranges" else s }

/-- The category dispatch shared by the branches of
`allocateGeneralSpeedups` (the three if-chains on the category name). -/
def addToCategory (p : Player) (cat : String) (amount : ℚ) : Player :=
  if cat = "soldier training" then
    { p with soldierTraining := p.soldierTraining + amount }
  else if cat = "construction" then { p with construction := p.construction + amount }
  else if cat = "research" then { p with research := p.research + amount }
  else p

/-- Whitespace as trimmed by `String.prototype.trim` on the inputs in
scope. -/
def wsChar (c : Char) : Bool :=
  c = ' ' || c = '\t' || c = '\n' || c = '\r'

/-- `str.trim().toLowerCase()` on the character list of a string. -/
def trimLower (l : List Char) : String :=
  String.mk ((((l.dropWhile wsChar).reverse.dropWhile wsChar).reverse).map Char.toLower)

/-- `allocateGeneralSpeedups` from `src/calculator.js` (lines 590-622),
returning the updated player (the source mutates in place).  The 60/40
constants are the exact rationals 6/10 and 4/10; the source computes with
binary doubles, a difference immaterial to the claims. -/
def allocateGeneralSpeedups (p : Player) : Player :=
  let usedFor := (splitOnChar ',' p.generalUsedFor.toList).map trimLower
  let usedFor := usedFor.map fun s => if s = "training" then "soldier training" else s
  let usedFor := usedFor.filter fun s => s ≠ ""
  let speedups := p.generalSpeedups
  match usedFor with
  | [] =>
    let split := ratDiv speedups 3
    { p with soldierTraining := p.soldierTraining + split,
             construction := p.construction + split,
             research := p.research + split }
  | [firstCat, secondCat] =>
    let split60 := speedups * ratDiv 6 10
    let split40 := speedups * ratDiv 4 10
    addToCategory (addToCategory p firstCat split60) secondCat split40
  | cats =>
    cats.foldl (fun acc cat => addToCategory acc cat (ratDiv speedups cats.length)) p

/-- The minister appointment built by `assignInitialMinisters`: the value
is the single rounded relevant speedup, formatted as a string. -/
def mkMinisterApp (speedupProp : Player → ℚ) (ps : PlayerSlot) : Appointment :=
  { start := ps.slot.start, stop := ps.slot.stop,
    alliance := ps.player.alliance, player := ps.player.player,
    speedups := .str (toString (jsRound (speedupProp ps.player))),
    truegold := ps.player.truegoldPieces,
    rawSpeedup := some (speedupProp ps.player), rawSpeedupSum := none }

/-- `assignInitialMinisters` from `src/calculator.js` (lines 252-307):
filter out already-flagged players, run the greedy pass then displacement,
push an appointment and set the pass's flag for every assigned player, and
append the leftovers to the waiting list.  The local `taken` set of the
source is written but never read and is omitted. -/
def assignInitialMinisters (day : Nat) (players : List Player) (speedupProp : Player → ℚ)
    (assignmentFlag : FlagKind) (st : SState) (tempWaitingList : List WaitingPlayer) :
    SState × List WaitingPlayer :=
  let unscheduled := players.filter fun p => !(st.getFlag assignmentFlag (playerId p))
  let slots := generateTimeSlots
  let afp := assignFirstPass unscheduled slots []
  let disp := performDisplacement afp.2 afp.1 speedupProp
  let st2 := disp.2.foldl
    (fun acc ps =>
      (acc.pushMinister day (mkMinisterApp speedupProp ps)).setFlag assignmentFlag
        (playerId ps.player) true)
    st
  (st2, tempWaitingList ++ disp.1.map toWaitingPlayer)

/-- The advisor appointment of training-day stage 1: a single rounded
soldier-training number. -/
def mkAdvisorApp (ps : PlayerSlot) : Appointment :=
  { start := ps.slot.start, stop := ps.slot.stop,
    alliance := ps.player.alliance, player := ps.player.player,
    speedups := .num (jsRound ps.player.soldierTraining),
    truegold := ps.player.truegoldPieces,
    rawSpeedup := some ps.player.soldierTraining, rawSpeedupSum := none }

/-- The minister appointment of training-day stage 2 (overflow): the
two-part `construction / research` composite. -/
def mkOverflowApp (ps : PlayerSlot) : Appointment :=
  { start := ps.slot.start, stop := ps.slot.stop,
    alliance := ps.player.alliance, player := ps.player.player,
    speedups := .str (toString (jsRound ps.player.construction) ++ " / " ++
      toString (jsRound ps.player.research)),
    truegold := ps.player.truegoldPieces,
    rawSpeedup := none, rawSpeedupSum := some (ps.player.construction + ps.player.research) }

/-- Stage 1 of `scheduleTrainingDay` (`src/calculator.js` lines 325-350):
assign advisors on day 4 keyed on soldier training and set the training
flag of every assigned player. -/
def trainingStage1 (players : List Player) (st : SState) : SState :=
  let day := 4
  let advisorSlots := generateTimeSlots
  let unscheduledForAdvisor := players.filter fun p => !(st.trainingAssignments (playerId p))
  let afpA := assignFirstPass unscheduledForAdvisor advisorSlots []
  let dispA := performDisplacement afpA.2 afpA.1 (fun p => p.soldierTraining)
  dispA.2.foldl
    (fun acc ps =>
      (acc.pushAdvisor day (mkAdvisorApp ps)).setFlag .training (playerId ps.player) true)
    st

/-- Stage 2 of `scheduleTrainingDay` (`src/calculator.js` lines 352-396):
the players not flagged as training-assigned and not flagged as
research-assigned fill an independent day-4 minister grid with the
two-part overflow value, setting the research flag; leftovers go to the
waiting list. -/
def trainingStage2 (players : List Player) (st2 : SState)
    (tempWaitingList : List WaitingPlayer) : SState × List WaitingPlayer :=
  let day := 4
  let ministerSlots := generateTimeSlots
  let overflowCandidates := players.filter fun p => !(st2.trainingAssignments (playerId p))
  let unscheduledOverflow := overflowCandidates.filter fun p =>
    !(st2.researchAssignments (playerId p))
  let afpM := assignFirstPass unscheduledOverflow ministerSlots []
  let dispM := performDisplacement afpM.2 afpM.1 (fun p => p.soldierTraining)
  let st3 := dispM.2.foldl
    (fun acc ps =>
      (acc.pushMinister day (mkOverflowApp ps)).setFlag .research (playerId ps.player) true)
    st2
  (st3, tempWaitingList ++ dispM.1.map toWaitingPlayer)

/-- `scheduleTrainingDay` from `src/calculator.js` (lines 318-396), the
composition of the two stages.  The `minHours` parameter is taken but
unused, as in the source. -/
def scheduleTrainingDay (players : List Player) (minHours : ℚ) (st : SState)
    (tempWaitingList : List WaitingPlayer) : SState × List WaitingPlayer :=
  trainingStage2 players (trainingStage1 players st) tempWaitingList

/-- The waiting-list consolidation: a `Map` keyed by `waitingKey` keeps the
first entry per key, in insertion order. -/
def dedupByKey (l : List WaitingPlayer) : List WaitingPlayer :=
  l.foldl
    (fun acc w => if acc.any (fun v => decide (waitingKey v = waitingKey w)) then acc
      else acc ++ [w])
    []

/-- `filtered.find` by identity, used by the consolidation loops to map a
waiting entry back to its player. -/
def findPlayer (filtered : List Player) (w : WaitingPlayer) : Option Player :=
  filtered.find? fun p => decide (p.player = w.player) && decide (p.alliance = w.alliance)

/-- The sort by total speedups descending applied to the waiting list for
the spillover day and before the day-3 pass.  When both entries resolve to
players this is the stable JavaScript sort by `getAllSpeedupsSum`
descending; when either side does not resolve the source comparator
returns 0, rendered here as keeping the existing order. -/
def sortWaitingBySum (filtered : List Player) (l : List WaitingPlayer) : List WaitingPlayer :=
  sortOrd
    (fun a b =>
      match findPlayer filtered a, findPlayer filtered b with
      | some pa, some pb => decide (getAllSpeedupsSum pb ≤ getAllSpeedupsSum pa)
      | _, _ => true)
    l

/-- The minister appointment pushed by the consolidation loops, built from
the waiting entry's already-rounded speedups. -/
def mkSpillApp (w : WaitingPlayer) (slot : TimeRange) : Appointment :=
  { start := slot.start, stop := slot.stop,
    alliance := w.alliance, player := w.player,
    speedups := .str (toString (jsRound (w.construction : ℚ)) ++ " / " ++
      toString (jsRound (w.research : ℚ))),
    truegold := (w.truegold : ℚ),
    rawSpeedup := none, rawSpeedupSum := none }

/-- The body of the spillover loop of `calculateScheduleData` (lines
1131-1188) for one waiting entry on one day: skip entries no longer on the
consolidated list or without a matching player; gate on the day's flag (on
a king day the day's own flag, on the remaining day the construction flag
first, else the research flag); place into the first free compatible slot,
set the selected flag and remove the entry from the consolidated list. -/
def spilloverStep (filtered : List Player) (constructDay researchDay day : Nat)
    (acc : SState × List WaitingPlayer) (waitingPlayer : WaitingPlayer) :
    SState × List WaitingPlayer :=
  if waitingPlayer ∉ acc.2 then acc
  else
    let pid := waitingPlayer.player ++ "-" ++ waitingPlayer.alliance
    match findPlayer filtered waitingPlayer with
    | none => acc
    | some player =>
      let cp : Bool × FlagKind :=
        if day = constructDay then
          (!(acc.1.constructionAssignments pid), .construction)
        else if day = researchDay then
          (!(acc.1.researchAssignments pid), .research)
        else if !(acc.1.constructionAssignments pid) then (true, .construction)
        else if !(acc.1.researchAssignments pid) then (true, .research)
        else (false, .construction)
      if !cp.1 then acc
      else
        let taken := (acc.1.ministers day).map (·.start)
        match generateTimeSlots.find? (fun s =>
            !(decide (s.start ∈ taken)) && isSlotAvailable player s.start s.stop) with
        | none => acc
        | some slot =>
          ((acc.1.pushMinister day (mkSpillApp waitingPlayer slot)).setFlag cp.2 pid true,
            acc.2.erase waitingPlayer)

/-- One day of the spillover loop: snapshot the consolidated list (sorted
by total speedups when the day is the non-king day) and try each entry. -/
def spilloverDay (filtered : List Player) (constructDay researchDay : Nat)
    (otherDay : Option Nat) (acc : SState × List WaitingPlayer) (day : Nat) :
    SState × List WaitingPlayer :=
  let daily := if otherDay = some day then sortWaitingBySum filtered acc.2 else acc.2
  daily.foldl (spilloverStep filtered constructDay researchDay day) acc

/-- The body of the last-resort day-3 loop (lines 1200-1228): entries whose
rounded construction+research sum is below the threshold are skipped,
otherwise the first free compatible day-3 minister slot is taken and all
three flags are set. -/
def day3Step (filtered : List Player) (minHours : ℚ)
    (acc : SState × List WaitingPlayer) (waitingPlayer : WaitingPlayer) :
    SState × List WaitingPlayer :=
  let pid := waitingPlayer.player ++ "-" ++ waitingPlayer.alliance
  match findPlayer filtered waitingPlayer with
  | none => acc
  | some player =>
    if ((waitingPlayer.construction : ℚ) + (waitingPlayer.research : ℚ)) < minHours then acc
    else
      let taken := (acc.1.ministers 3).map (·.start)
      match generateTimeSlots.find? (fun s =>
          !(decide (s.start ∈ taken)) && isSlotAvailable player s.start s.stop) with
      | none => acc
      | some slot =>
        ((((acc.1.pushMinister 3 (mkSpillApp waitingPlayer slot)).setFlag
              .construction pid true).setFlag .research pid true).setFlag .training pid true,
          acc.2.erase waitingPlayer)

/-- The state with empty appointment lists and empty flag maps, as
initialized at the top of `calculateScheduleData`. -/
def initAssignments : SState :=
  { ministers := fun _ => [], advisors := fun _ => [],
    constructionAssignments := fun _ => false,
    researchAssignments := fun _ => false,
    trainingAssignments := fun _ => false }

/-- The flag initialization of `calculateScheduleData` (lines 1066-1075):
minister-qualified players get explicit `false` construction/research
flags, training-qualified players an explicit `false` training flag. -/
def initFlags (filtered : List Player) (minHours : ℚ) (st : SState) : SState :=
  filtered.foldl
    (fun acc p =>
      let pid := playerId p
      let acc2 :=
        if minHours ≤ p.construction + p.research then
          (acc.setFlag .construction pid false).setFlag .research pid false
        else acc
      if minHours ≤ p.soldierTraining then acc2.setFlag .training pid false else acc2)
    st

/-- The result of a scheduling run: the processed players, the filtered-out
players, the final assignments and flags, and the final waiting list. -/
structure ScheduleResult where
  processedPlayers : List Player
  filteredOut : List Player
  state : SState
  waitingList : List WaitingPlayer

/-- `calculateScheduleData` from `src/calculator.js` (lines 1039-1235).
The configuration values read from the DOM (`minHours`,
`constructionKingDay`, `researchKingDay`) are parameters; the timestamp
and raw-player bookkeeping and the stored error list do not affect
scheduling and are not modelled. -/
def calculateScheduleData (players : List Player) (minHours : ℚ)
    (constructDay researchDay : Nat) : ScheduleResult :=
  let processed := players.map allocateGeneralSpeedups
  let filtered := processed.filter fun p =>
    decide (minHours ≤ p.construction + p.research) || decide (minHours ≤ p.soldierTraining)
  let filteredOut := processed.filter fun p =>
    !(decide (minHours ≤ p.construction + p.research) ||
      decide (minHours ≤ p.soldierTraining))
  let st0 := initFlags filtered minHours initAssignments
  let constructionList := filtered.filter fun p => decide (minHours ≤ p.construction)
  let r1 := assignInitialMinisters constructDay constructionList (fun p => p.construction)
    .construction st0 []
  let researchList := filtered.filter fun p => decide (minHours ≤ p.research)
  let r2 := assignInitialMinisters researchDay researchList (fun p => p.research)
    .research r1.1 r1.2
  let advisorList := filtered.filter fun p => decide (minHours ≤ p.soldierTraining)
  let r3 := scheduleTrainingDay advisorList minHours r2.1 r2.2
  let consolidated := dedupByKey r3.2
  let otherDay := [1, 2, 5].find? fun d =>
    decide (d ≠ constructDay) && decide (d ≠ researchDay)
  let priorityDays :=
    match otherDay with
    | some d => [constructDay, researchDay, d]
    | none => [constructDay, researchDay]
  let r4 := priorityDays.foldl (spilloverDay filtered constructDay researchDay otherDay)
    (r3.1, consolidated)
  let sorted := sortWaitingBySum filtered r4.2
  let r5 := sorted.foldl (day3Step filtered minHours) (r4.1, sorted)
  { processedPlayers := processed, filteredOut := filteredOut,
    state := r5.1, waitingList := r5.2 }

end KS

namespace KS

/-- A minister value is either a single rounded score rendered as a string
or the two-part `construction / research` composite. -/
def MinisterFmtOk (app : Appointment) : Prop :=
  (∃ n : ℤ, app.speedups = .str (toString n)) ∨
  ∃ c r : ℤ, app.speedups = .str (toString c ++ " / " ++ toString r)

/-- An advisor value is a single rounded number. -/
def AdvisorFmtOk (app : Appointment) : Prop :=
  ∃ n : ℤ, app.speedups = .num n

/-- Every minister appointment in the state has a minister format and
every advisor appointment a numeric value. -/
def FmtInv (st : SState) : Prop :=
  ∀ d : Nat, (∀ app ∈ st.ministers d, MinisterFmtOk app) ∧
    (∀ app ∈ st.advisors d, AdvisorFmtOk app)

/-- The identity string under which an appointment's player is keyed in
the assignment-flag maps (`player-alliance`). -/
def appPid (app : Appointment) : String := app.player ++ "-" ++ app.alliance

/-- The identity string of an appointment in the waiting-key form
(`alliance/player`). -/
def appKey (app : Appointment) : String := app.alliance ++ "/" ++ app.player

/-- The appointment lists of one state are contained in those of
another. -/
def SubApp (st st' : SState) : Prop :=
  ∀ d : Nat, (∀ a ∈ st.ministers d, a ∈ st'.ministers d) ∧
    (∀ a ∈ st.advisors d, a ∈ st'.advisors d)

/-- Every set flag is backed by an appointment carrying the same identity
string: the link between the three flag maps and the appointment lists. -/
def LinkInv (st : SState) : Prop :=
  ∀ pid k, st.getFlag k pid = true →
    ∃ d, ∃ app ∈ st.ministers d ++ st.advisors d, appPid app = pid

/-- A candidate is covered by a state and a waiting list: some appointment
carries the candidate's identity (in the `player-alliance` flag-key
rendering or the `alliance/player` waiting-key rendering), or some waiting
entry carries the candidate's waiting key. -/
def Covered (p : Player) (st : SState) (wl : List WaitingPlayer) : Prop :=
  (∃ d, ∃ app ∈ st.ministers d ++ st.advisors d,
    appPid app = playerId p ∨ appKey app = p.alliance ++ "/" ++ p.player) ∨
  ∃ w ∈ wl, waitingKey w = p.alliance ++ "/" ++ p.player

end KS

namespace Csv

open KS

/-- `str.trim()` on a character list (the whitespace in scope). -/
def trimChars (l : List Char) : List Char :=
  ((l.dropWhile KS.wsChar).reverse.dropWhile KS.wsChar).reverse

/-- Splits `core` digits as the anchored time patterns of the newer
`extractTimeWithAmPm` (`src/unnamed/part_001`, second document): exactly
four digits (military time), one or two digits followed by one of the
separators `h`, `.`, `:` and two digits, or a bare one- or two-digit
hour. -/
def parseHM (core : List Char) : Option (Nat × Nat) :=
  if core.length = 4 && core.all Char.isDigit then
    some (digitsVal (core.take 2), digitsVal (core.drop 2))
  else
    match core with
    | [a, s, x, y] =>
      if a.isDigit && (s = 'h' || s = '.' || s = ':') && x.isDigit && y.isDigit then
        some (digitsVal [a], digitsVal [x, y])
      else none
    | [a, b, s, x, y] =>
      if a.isDigit && b.isDigit && (s = 'h' || s = '.' || s = ':') && x.isDigit &&
          y.isDigit then
        some (digitsVal [a, b], digitsVal [x, y])
      else none
    | [a] => if a.isDigit then some (digitsVal [a], 0) else none
    | [a, b] => if a.isDigit && b.isDigit then some (digitsVal [a, b], 0) else none
    | _ => none

/-- `extractTimeWithAmPm` from the second document of
`src/unnamed/part_001` (lines 281-356): trims and lowercases, strips an
optional `am`/`pm` suffix, parses the anchored digit patterns, rejects
hours above 24, minutes above 59 and `24` with nonzero minutes, applies
the am/pm adjustment, folds 24 to midnight, clamps, and formats as
`HH:MM`. -/
def extractTimeWithAmPm (tok : List Char) : Option String :=
  let t := (trimChars tok).map Char.toLower
  if t = [] then none
  else
    let sp : List Char × Option Bool :=
      match t.reverse with
      | 'm' :: 'a' :: rest => (rest.reverse, some false)
      | 'm' :: 'p' :: rest => (rest.reverse, some true)
      | _ => (t, none)
    match parseHM sp.1 with
    | none => none
    | some hm =>
      if 24 < hm.1 || 59 < hm.2 then none
      else if hm.1 = 24 && hm.2 ≠ 0 then none
      else
        let h1 := if sp.2 = some true && hm.1 ≠ 12 then hm.1 + 12 else hm.1
        let h2 := if sp.2 = some false && h1 = 12 then 0 else h1
        let h3 := if h2 = 24 then 0 else h2
        let h4 := min 23 h3
        some (pad2 h4 ++ ":" ++ pad2 (min 59 hm.2))

/-- The newer `parseTimeRanges` (second document of `src/unnamed/part_001`,
lines 416-479): the same scanner, noise removal, range-delimiter and
single-hour logic as `src/parse.js` (the regexes and the loop are
identical), but with the multi-format `extractTimeWithAmPm` above. -/
def parseTimeRanges (allTimes : String) : List TimeRange :=
  Parse.parseTimeRangesWith extractTimeWithAmPm allTimes

/-- `unionTimeRanges` (lines 392-407): drop exact duplicate ranges keeping
first occurrences, then stable-sort by start time ascending. -/
def unionTimeRanges (ranges : List TimeRange) : List TimeRange :=
  let unique := ranges.foldl
    (fun acc r =>
      if acc.any (fun u => decide (u.start = r.start) && decide (u.stop = r.stop)) then acc
      else acc ++ [r])
    []
  sortOrd (fun a b => decide (timeToMinutes a.start ≤ timeToMinutes b.start)) unique

/-- `parseFloat` restricted to plain decimal notation: leading whitespace,
an optional sign, digits with an optional fractional part, parsed as a
prefix; `none` models `NaN`.  Exponent notation and `Infinity` are not
modelled; the roster's numeric fields use plain decimals. -/
def jsParseFloat (s : String) : Option ℚ :=
  let l := s.toList.dropWhile KS.wsChar
  let sl : ℚ × List Char :=
    match l with
    | '-' :: r => (-1, r)
    | '+' :: r => (1, r)
    | _ => (1, l)
  let ds := sl.2.takeWhile Char.isDigit
  let rest := sl.2.drop ds.length
  let fs : List Char :=
    match rest with
    | '.' :: r => r.takeWhile Char.isDigit
    | _ => []
  if ds = [] && fs = [] then none
  else some (sl.1 * ((digitsVal ds : ℚ) +
    ratDiv (digitsVal fs : ℚ) ((10 : ℚ) ^ fs.length)))

/-- The `timeFormatRegex`
`^(24[0:.\h]?00|\d{4}|\d{1,2}(?::\d{2}|\.\d{2}|h\d{2})?)$` of the CSV
parser (line 609), as a full-string matcher (`\h` in the character class
is a plain `h`). -/
def timeFormatOk (s : String) : Bool :=
  let l := s.toList
  (match l with
   | ['2', '4', c, '0', '0'] => decide (c = '0') || decide (c = ':') ||
       decide (c = '.') || decide (c = 'h')
   | _ => false) ||
  (l.length = 4 && l.all Char.isDigit) ||
  (match l with
   | [a] => a.isDigit
   | [a, b] => a.isDigit && b.isDigit
   | [a, s1, x, y] => a.isDigit && (s1 = ':' || s1 = '.' || s1 = 'h') &&
       x.isDigit && y.isDigit
   | [a, b, s1, x, y] => a.isDigit && b.isDigit && (s1 = ':' || s1 = '.' || s1 = 'h') &&
       x.isDigit && y.isDigit
   | _ => false)

/-- The character scan of `parseCsvLine` (lines 535-556): tracks the
in-quotes state, doubles of `"` inside quotes produce a literal quote, the
delimiter splits only outside quotes. -/
def parseCsvLineAux (delimiter : Char) : List Char → Bool → List Char → List (List Char)
  | [], _, current => [current]
  | '"' :: '"' :: cs2, true, current => parseCsvLineAux delimiter cs2 true (current ++ ['"'])
  | '"' :: cs, inQuotes, current => parseCsvLineAux delimiter cs (!inQuotes) current
  | c :: cs, inQuotes, current =>
    if c = delimiter && !inQuotes then
      current :: parseCsvLineAux delimiter cs inQuotes []
    else parseCsvLineAux delimiter cs inQuotes (current ++ [c])

/-- `parseCsvLine`: scan, then trim every field. -/
def parseCsvLine (line : List Char) (delimiter : Char) : List String :=
  (parseCsvLineAux delimiter line false []).map fun f => String.mk (trimChars f)

/-- The parsed roster record: the raw lowercased-header/field assignments,
the identity values, the five converted numeric fields and the parsed
availability.  This captures the content of the JavaScript row object (raw
fields, numeric overwrites, `availableTimeRanges`). -/
structure CsvPlayer where
  raw : List (String × String)
  player : String
  alliance : String
  generalSpeedups : ℚ
  soldierTraining : ℚ
  construction : ℚ
  research : ℚ
  truegoldPieces : ℚ
  availableTimeRanges : List TimeRange
deriving DecidableEq, Repr

/-- The duplicate-detection key `${alliance}/${player}` (line 655). -/
def csvKey (p : CsvPlayer) : String := p.alliance ++ "/" ++ p.player

/-- The result of the CSV parse. -/
structure CsvResult where
  players : List CsvPlayer
  errors : List String
deriving DecidableEq, Repr

/-- Reading a row-object property: the last assignment wins, a missing
header reads as `undefined` (`none`). -/
def objGet (obj : List (String × String)) (k : String) : Option String :=
  ((obj.filter fun e => decide (e.1 = k)).getLast?).map fun e => e.2

/-- JavaScript truthiness of an optional string (`undefined`, `null` and
the empty string are falsy). -/
def truthyStr (x : Option String) : Bool :=
  match x with
  | some s => s ≠ ""
  | none => false

/-- One numeric-field conversion (lines 584-600): `na`/`n/a` become `0`
silently, an unparsable nonempty value records an error, and the stored
number is `parseFloat(value) || 0`.  A missing header makes the property
access crash (`none`). -/
def numField (lineNumber : Nat) (rawLine : String) (obj : List (String × String))
    (f : String) : Option (ℚ × List String) :=
  match objGet obj f with
  | none => none
  | some s0 =>
    let o := String.mk (trimChars s0.toList)
    let lower := String.mk (o.toList.map Char.toLower)
    if lower = "na" || lower = "n/a" then some (0, [])
    else
      match jsParseFloat o with
      | some v => some (v, [])
      | none =>
        some (0,
          if o ≠ "" then
            ["Line " ++ toString lineNumber ++ ": Invalid number in " ++ "'" ++ f ++
              "' field: \"" ++ o ++ "\". Raw line: \"" ++ rawLine ++ "\""]
          else [])

/-- The raw-text wrapper of a time-validation failure (lines 663-665). -/
def timeErr (lineNumber : Nat) (rawLine msg : String) : String :=
  "Line " ++ toString lineNumber ++ ": Time parsing error - " ++ msg ++
    ". Raw line: \"" ++ rawLine ++ "\""

/-- One data line of `parseCsvToObjects` (lines 563-667): field-count
check, row-object build from the lowercased trimmed headers, numeric
conversion of the five numeric fields (a missing numeric header crashes:
`none`), time-format and presence validation, range parsing, player-name
check, and finally the keyed record.  `Sum.inl` carries the line's error
messages, `Sum.inr` the accepted record. -/
def processLine (headers : List String) (delimiter : Char) (lineNumber : Nat)
    (line : List Char) : Option (List String ⊕ CsvPlayer) :=
  let rawLine := String.mk line
  let fields := parseCsvLine line delimiter
  if fields.length < headers.length then
    some (Sum.inl ["Line " ++ toString lineNumber ++
      ": Field count mismatch - expected at least " ++ toString headers.length ++
      " fields, got " ++ toString fields.length ++ ". Raw line: \"" ++ rawLine ++ "\""])
  else
    let obj := (headers.zip fields).map fun e => (KS.trimLower e.1.toList, e.2)
    (numField lineNumber rawLine obj "general speedups").bind fun n1 =>
    (numField lineNumber rawLine obj "soldier training").bind fun n2 =>
    (numField lineNumber rawLine obj "construction").bind fun n3 =>
    (numField lineNumber rawLine obj "research").bind fun n4 =>
    (numField lineNumber rawLine obj "truegold pieces").bind fun n5 =>
    let nErrs := n1.2 ++ n2.2 ++ n3.2 ++ n4.2 ++ n5.2
    if nErrs ≠ [] then some (Sum.inl nErrs)
    else
      let start? := objGet obj "time slot start utc"
      let end? := objGet obj "time slot end utc"
      let all? := objGet obj "all times"
      if truthyStr start? && !(timeFormatOk (start?.getD "")) then
        some (Sum.inl [timeErr lineNumber rawLine
          ("Invalid format for " ++ "'" ++ "time slot start utc" ++ "'" ++ ": \"" ++
            start?.getD "" ++ "\"")])
      else if truthyStr end? && !(timeFormatOk (end?.getD "")) then
        some (Sum.inl [timeErr lineNumber rawLine
          ("Invalid format for " ++ "'" ++ "time slot end utc" ++ "'" ++ ": \"" ++
            end?.getD "" ++ "\"")])
      else if truthyStr start? ≠ truthyStr end? then
        some (Sum.inl [timeErr lineNumber rawLine
          ("Must provide both " ++ "'" ++ "time slot start utc" ++ "'" ++ " and " ++
            "'" ++ "time slot end utc" ++ "'" ++ " together, or omit both")])
      else if !(truthyStr start? && truthyStr end?) && !(truthyStr all?) then
        some (Sum.inl [timeErr lineNumber rawLine
          ("Must provide " ++ "'" ++ "all times" ++ "'" ++
            " (or both " ++ "'" ++ "time slot start utc" ++ "'" ++ " and " ++ "'" ++
            "time slot end utc" ++ "'" ++ " for backwards compatibility)")])
      else
        let ranges :=
          if truthyStr start? && truthyStr end? && truthyStr all? then
            unionTimeRanges
              (parseTimeRanges (start?.getD "" ++ "-" ++ end?.getD "") ++
                parseTimeRanges (all?.getD ""))
          else if truthyStr start? && truthyStr end? then
            parseTimeRanges (start?.getD "" ++ "-" ++ end?.getD "")
          else parseTimeRanges (all?.getD "")
        match objGet obj "player" with
        | none =>
          some (Sum.inl ["Line " ++ toString lineNumber ++ ": Missing required " ++
            "'" ++ "Player" ++ "'" ++ " field. Raw line: \"" ++ rawLine ++ "\""])
        | some pv =>
          if String.mk (trimChars pv.toList) = "" then
            some (Sum.inl ["Line " ++ toString lineNumber ++ ": Missing required " ++
              "'" ++ "Player" ++ "'" ++ " field. Raw line: \"" ++ rawLine ++ "\""])
          else
            some (Sum.inr
              { raw := obj, player := pv, alliance := (objGet obj "alliance").getD "",
                generalSpeedups := n1.1, soldierTraining := n2.1, construction := n3.1,
                research := n4.1, truegoldPieces := n5.1, availableTimeRanges := ranges })

/-- `Map.set`: overwrite in place when the key exists (keeping the original
insertion position), append otherwise. -/
def mapSet (m : List (String × CsvPlayer)) (k : String) (v : CsvPlayer) :
    List (String × CsvPlayer) :=
  if m.any (fun e => decide (e.1 = k)) then
    m.map fun e => if e.1 = k then (k, v) else e
  else m ++ [(k, v)]

/-- `Map.get`. -/
def mapLookup (m : List (String × CsvPlayer)) (k : String) : Option CsvPlayer :=
  ((m.filter fun e => decide (e.1 = k)).getLast?).map fun e => e.2

/-- The nonblank lines of the CSV text. -/
def csvLines (csvText : String) : List (List Char) :=
  (splitOnChar '\n' csvText.toList).filter fun l => trimChars l ≠ []

/-- Delimiter auto-detection from the first line (comma wins ties). -/
def csvDelimiter (firstLine : List Char) : Char :=
  if firstLine.count '\t' ≤ firstLine.count ',' then ',' else '\t'

/-- One loop iteration of `parseCsvToObjects`: a crashed line poisons the
whole run, an error line appends its messages, an accepted record is
written to the map under its key. -/
def csvStep (headers : List String) (delimiter : Char)
    (acc? : Option (List (String × CsvPlayer) × List String)) (il : Nat × List Char) :
    Option (List (String × CsvPlayer) × List String) :=
  acc?.bind fun acc =>
    (processLine headers delimiter (il.1 + 2) il.2).map fun r =>
      match r with
      | Sum.inl es => (acc.1, acc.2 ++ es)
      | Sum.inr p => (mapSet acc.1 (csvKey p) p, acc.2)

/-- `parseCsvToObjects` from the second document of `src/unnamed/part_001`
(lines 517-668).  `none` models the uncaught `TypeError` thrown when a
numeric header column is absent. -/
def parseCsvToObjects (csvText : String) : Option CsvResult :=
  match csvLines csvText with
  | [] => some { players := [], errors := [] }
  | firstLine :: rest =>
    let delimiter := csvDelimiter firstLine
    let headers := parseCsvLine firstLine delimiter
    (rest.enum.foldl (csvStep headers delimiter) (some ([], []))).map fun acc =>
      { players := acc.1.map fun e => e.2, errors := acc.2 }

/-- The accepted records carrying key `K`, in line order. -/
def csvRecordsWithKey (csvText : String) (K : String) : List CsvPlayer :=
  match csvLines csvText with
  | [] => []
  | firstLine :: rest =>
    let delimiter := csvDelimiter firstLine
    let headers := parseCsvLine firstLine delimiter
    rest.enum.filterMap fun il =>
      match processLine headers delimiter (il.1 + 2) il.2 with
      | some (Sum.inr p) => if csvKey p = K then some p else none
      | _ => none

/-- The per-line error messages, in line order; accepted lines (duplicates
included) contribute nothing. -/
def csvLineErrors (csvText : String) : List String :=
  match csvLines csvText with
  | [] => []
  | firstLine :: rest =>
    let delimiter := csvDelimiter firstLine
    let headers := parseCsvLine firstLine delimiter
    rest.enum.flatMap fun il =>
      match processLine headers delimiter (il.1 + 2) il.2 with
      | some (Sum.inl es) => es
      | _ => []

end Csv

section DispLemmas

open KS

lemma insertOrd_perm {α : Type} (le : α → α → Bool) (x : α) (l : List α) :
    List.Perm (KS.insertOrd le x l) (x :: l) := by
  induction l with
  | nil => exact List.Perm.refl _
  | cons y ys ih =>
    simp only [KS.insertOrd]
    split
    · exact List.Perm.refl _
    · exact (ih.cons y).trans (List.Perm.swap x y ys)

lemma sortOrd_perm {α : Type} (le : α → α → Bool) (l : List α) :
    List.Perm (KS.sortOrd le l) l := by
  induction l with
  | nil => exact List.Perm.refl _
  | cons x xs ih =>
    exact (insertOrd_perm le x (KS.sortOrd le xs)).trans (ih.cons x)

/-- Writing an index update as take/element/drop, for reasoning about the
swap performed by the displacement loop. -/
lemma list_set_decomp {α : Type} :
    ∀ (l : List α) (j : Nat) (t x : α), l[j]? = some t →
      l = l.take j ++ t :: l.drop (j + 1) ∧
      l.set j x = l.take j ++ x :: l.drop (j + 1) := by
  intro l
  induction l with
  | nil => intro j t x h; simp at h
  | cons a as ih =>
    intro j t x h
    cases j with
    | zero => simp_all
    | succ n =>
      obtain ⟨h1, h2⟩ := ih n t x (by simpa using h)
      constructor
      · simpa using congrArg (a :: ·) h1
      · simpa using congrArg (a :: ·) h2

lemma bestTargetAux_none (ev : Player → ℚ) (c : Player) :
    ∀ (l : List PlayerSlot) (j : Nat) (best : Option (Nat × ℚ)),
      bestTargetAux ev c l j best = none →
      best = none ∧ ∀ a ∈ l, isSlotAvailable c a.slot.start a.slot.stop = false := by
  intro l
  induction l with
  | nil => intro j best h; simpa [KS.bestTargetAux] using h
  | cons a rest ih =>
    intro j best h
    cases best with
    | none =>
      simp only [KS.bestTargetAux] at h
      by_cases hav : isSlotAvailable c a.slot.start a.slot.stop
      · rw [if_pos hav] at h
        exact absurd (ih _ _ h).1 (by simp)
      · rw [if_neg hav] at h
        obtain ⟨h1, h2⟩ := ih _ _ h
        refine ⟨rfl, ?_⟩
        intro b hb
        rcases List.mem_cons.mp hb with rfl | hb
        · simpa using hav
        · exact h2 _ hb
    | some jv =>
      simp only [KS.bestTargetAux] at h
      by_cases hav : isSlotAvailable c a.slot.start a.slot.stop
      · rw [if_pos hav] at h
        split at h <;> exact absurd (ih _ _ h).1 (by simp)
      · rw [if_neg hav] at h
        exact absurd (ih _ _ h).1 (by simp)

lemma bestTargetAux_some (ev : Player → ℚ) (c : Player) :
    ∀ (l : List PlayerSlot) (j : Nat) (best : Option (Nat × ℚ)) (jv : Nat × ℚ),
      bestTargetAux ev c l j best = some jv →
      best = some jv ∨
        ∃ k t, l[k]? = some t ∧ jv.1 = j + k ∧
          isSlotAvailable c t.slot.start t.slot.stop = true ∧ ev t.player = jv.2 := by
  intro l
  induction l with
  | nil => intro j best jv h; exact Or.inl (by simpa [KS.bestTargetAux] using h)
  | cons a rest ih =>
    intro j best jv h
    have shift : ∀ k t, rest[k]? = some t → jv.1 = (j + 1) + k →
        isSlotAvailable c t.slot.start t.slot.stop = true → ev t.player = jv.2 →
        (∃ k t, (a :: rest)[k]? = some t ∧ jv.1 = j + k ∧
          isSlotAvailable c t.slot.start t.slot.stop = true ∧ ev t.player = jv.2) := by
      intro k t hk hj havt hvt
      exact ⟨k + 1, t, by simpa using hk, by omega, havt, hvt⟩
    have fromHead : jv = (j, ev a.player) →
        isSlotAvailable c a.slot.start a.slot.stop = true →
        (∃ k t, (a :: rest)[k]? = some t ∧ jv.1 = j + k ∧
          isSlotAvailable c t.slot.start t.slot.stop = true ∧ ev t.player = jv.2) := by
      intro hjv hav
      exact ⟨0, a, by simp, by simp [hjv], hav, by simp [hjv]⟩
    cases best with
    | none =>
      simp only [KS.bestTargetAux] at h
      by_cases hav : isSlotAvailable c a.slot.start a.slot.stop
      · rw [if_pos hav] at h
        rcases ih _ _ _ h with hbase | ⟨k, t, hk, hj, havt, hvt⟩
        · exact Or.inr (fromHead (Option.some.inj hbase).symm hav)
        · exact Or.inr (shift k t hk hj havt hvt)
      · rw [if_neg hav] at h
        rcases ih _ _ _ h with hbase | ⟨k, t, hk, hj, havt, hvt⟩
        · simp at hbase
        · exact Or.inr (shift k t hk hj havt hvt)
    | some jv0 =>
      simp only [KS.bestTargetAux] at h
      by_cases hav : isSlotAvailable c a.slot.start a.slot.stop
      · rw [if_pos hav] at h
        split at h
        · rcases ih _ _ _ h with hbase | ⟨k, t, hk, hj, havt, hvt⟩
          · exact Or.inr (fromHead (Option.some.inj hbase).symm hav)
          · exact Or.inr (shift k t hk hj havt hvt)
        · rcases ih _ _ _ h with hbase | ⟨k, t, hk, hj, havt, hvt⟩
          · exact Or.inl hbase
          · exact Or.inr (shift k t hk hj havt hvt)
      · rw [if_neg hav] at h
        rcases ih _ _ _ h with hbase | ⟨k, t, hk, hj, havt, hvt⟩
        · exact Or.inl hbase
        · exact Or.inr (shift k t hk hj havt hvt)

lemma bestTargetAux_min (ev : Player → ℚ) (c : Player) :
    ∀ (l : List PlayerSlot) (j : Nat) (best : Option (Nat × ℚ)) (jv : Nat × ℚ),
      bestTargetAux ev c l j best = some jv →
      (∀ a ∈ l, isSlotAvailable c a.slot.start a.slot.stop = true → jv.2 ≤ ev a.player) ∧
      (∀ jv0, best = some jv0 → jv.2 ≤ jv0.2) := by
  intro l
  induction l with
  | nil =>
    intro j best jv h
    simp only [KS.bestTargetAux] at h
    subst h
    refine ⟨by simp, ?_⟩
    intro jv0 h0
    obtain rfl := Option.some.inj h0
    exact le_refl _
  | cons a rest ih =>
    intro j best jv h
    cases best with
    | none =>
      simp only [KS.bestTargetAux] at h
      by_cases hav : isSlotAvailable c a.slot.start a.slot.stop
      · rw [if_pos hav] at h
        obtain ⟨hrest, hbest⟩ := ih _ _ _ h
        have hva : jv.2 ≤ ev a.player := hbest _ rfl
        refine ⟨?_, by simp⟩
        intro b hb hbav
        rcases List.mem_cons.mp hb with rfl | hb
        · exact hva
        · exact hrest _ hb hbav
      · rw [if_neg hav] at h
        obtain ⟨hrest, _⟩ := ih _ _ _ h
        refine ⟨?_, by simp⟩
        intro b hb hbav
        rcases List.mem_cons.mp hb with rfl | hb
        · exact absurd hbav (by simp [hav])
        · exact hrest _ hb hbav
    | some jv0 =>
      simp only [KS.bestTargetAux] at h
      by_cases hav : isSlotAvailable c a.slot.start a.slot.stop
      · rw [if_pos hav] at h
        by_cases hlt : ev a.player < jv0.2
        · rw [if_pos hlt] at h
          obtain ⟨hrest, hbest⟩ := ih _ _ _ h
          have hva : jv.2 ≤ ev a.player := hbest _ rfl
          refine ⟨?_, ?_⟩
          · intro b hb hbav
            rcases List.mem_cons.mp hb with rfl | hb
            · exact hva
            · exact hrest _ hb hbav
          · intro jv1 h1
            obtain rfl := Option.some.inj h1
            exact le_trans hva (le_of_lt hlt)
        · rw [if_neg hlt] at h
          obtain ⟨hrest, hbest⟩ := ih _ _ _ h
          have hv0 : jv.2 ≤ jv0.2 := hbest _ rfl
          refine ⟨?_, ?_⟩
          · intro b hb hbav
            rcases List.mem_cons.mp hb with rfl | hb
            · exact le_trans hv0 (le_of_not_lt hlt)
            · exact hrest _ hb hbav
          · intro jv1 h1
            obtain rfl := Option.some.inj h1
            exact hv0
      · rw [if_neg hav] at h
        obtain ⟨hrest, hbest⟩ := ih _ _ _ h
        have hv0 : jv.2 ≤ jv0.2 := hbest _ rfl
        refine ⟨?_, ?_⟩
        · intro b hb hbav
          rcases List.mem_cons.mp hb with rfl | hb
          · exact absurd hbav (by simp [hav])
          · exact hrest _ hb hbav
        · intro jv1 h1
          obtain rfl := Option.some.inj h1
          exact hv0

lemma bestTarget_some (ev : Player → ℚ) (c : Player) (asg : List PlayerSlot)
    (jv : Nat × ℚ) (h : bestTarget ev c asg = some jv) :
    ∃ t, asg[jv.1]? = some t ∧ isSlotAvailable c t.slot.start t.slot.stop = true ∧
      ev t.player = jv.2 := by
  rcases bestTargetAux_some ev c asg 0 none jv h with hbase | ⟨k, t, hk, hj, havt, hvt⟩
  · simp at hbase
  · exact ⟨t, by simpa [hj] using hk, havt, hvt⟩

lemma bestTarget_min (ev : Player → ℚ) (c : Player) (asg : List PlayerSlot)
    (jv : Nat × ℚ) (h : bestTarget ev c asg = some jv) :
    ∀ a ∈ asg, isSlotAvailable c a.slot.start a.slot.stop = true → jv.2 ≤ ev a.player :=
  (bestTargetAux_min ev c asg 0 none jv h).1

lemma bestTarget_none (ev : Player → ℚ) (c : Player) (asg : List PlayerSlot)
    (h : bestTarget ev c asg = none) :
    ∀ a ∈ asg, isSlotAvailable c a.slot.start a.slot.stop = false :=
  (bestTargetAux_none ev c asg 0 none h).2

lemma findSwap_none (ev : Player → ℚ) (asg : List PlayerSlot) :
    ∀ l, findSwap ev asg l = none →
      ∀ c ∈ l, ∀ jv, bestTarget ev c asg = some jv → ev c ≤ jv.2 := by
  intro l
  induction l with
  | nil => intro _ c hc; simp at hc
  | cons c0 cs ih =>
    intro h c hc jv hbt
    simp only [KS.findSwap] at h
    rcases List.mem_cons.mp hc with rfl | hc
    · rw [hbt] at h
      dsimp only at h
      by_cases hlt : jv.2 < ev c
      · rw [if_pos hlt] at h; simp at h
      · exact le_of_not_lt hlt
    · cases hb : bestTarget ev c0 asg with
      | none =>
        rw [hb] at h
        dsimp only at h
        cases hrec : findSwap ev asg cs with
        | none => exact ih hrec c hc jv hbt
        | some r => rw [hrec] at h; simp at h
      | some jv0 =>
        rw [hb] at h
        dsimp only at h
        by_cases hlt : jv0.2 < ev c0
        · rw [if_pos hlt] at h; simp at h
        · rw [if_neg hlt] at h
          cases hrec : findSwap ev asg cs with
          | none => exact ih hrec c hc jv hbt
          | some r => rw [hrec] at h; simp at h

lemma findSwap_some (ev : Player → ℚ) (asg : List PlayerSlot) :
    ∀ l c rest j, findSwap ev asg l = some (c, rest, j) →
      List.Perm (c :: rest) l ∧ ∃ v, bestTarget ev c asg = some (j, v) ∧ v < ev c := by
  intro l
  induction l with
  | nil => intro c rest j h; simp [KS.findSwap] at h
  | cons c0 cs ih =>
    intro c rest j h
    simp only [KS.findSwap] at h
    cases hb : bestTarget ev c0 asg with
    | some jv0 =>
      rw [hb] at h
      dsimp only at h
      by_cases hlt : jv0.2 < ev c0
      · rw [if_pos hlt] at h
        obtain ⟨rfl, rfl, rfl⟩ : c0 = c ∧ cs = rest ∧ jv0.1 = j := by
          simpa [Prod.ext_iff] using h
        exact ⟨List.Perm.refl _, jv0.2, by simpa using hb, hlt⟩
      · rw [if_neg hlt] at h
        cases hrec : findSwap ev asg cs with
        | none => rw [hrec] at h; simp at h
        | some r =>
          rw [hrec] at h
          obtain ⟨rfl, rfl, rfl⟩ : r.1 = c ∧ c0 :: r.2.1 = rest ∧ r.2.2 = j := by
            simpa [Prod.ext_iff] using h
          obtain ⟨hperm, v, hbt, hlt2⟩ := ih r.1 r.2.1 r.2.2 (by simp [hrec])
          exact ⟨(List.Perm.swap c0 r.1 r.2.1).trans (hperm.cons c0), v, hbt, hlt2⟩
    | none =>
      rw [hb] at h
      dsimp only at h
      cases hrec : findSwap ev asg cs with
      | none => rw [hrec] at h; simp at h
      | some r =>
        rw [hrec] at h
        obtain ⟨rfl, rfl, rfl⟩ : r.1 = c ∧ c0 :: r.2.1 = rest ∧ r.2.2 = j := by
          simpa [Prod.ext_iff] using h
        obtain ⟨hperm, v, hbt, hlt⟩ := ih r.1 r.2.1 r.2.2 (by simp [hrec])
        exact ⟨(List.Perm.swap c0 r.1 r.2.1).trans (hperm.cons c0), v, hbt, hlt⟩

end DispLemmas

section MeasureLemmas

open KS

lemma invCountM_consA (U A : Multiset ℚ) (x : ℚ) :
    invCountM U (x ::ₘ A) = (U.filter (fun y => x < y)).card + invCountM U A := by
  simp [invCountM]

lemma invCountM_consU (U A : Multiset ℚ) (y : ℚ) :
    invCountM (y ::ₘ U) A = invCountM U A + (A.filter (fun x => x < y)).card := by
  induction A using Multiset.induction_on with
  | empty => simp [invCountM]
  | cons a s ih =>
    rw [invCountM_consA, invCountM_consA, ih, Multiset.filter_cons, Multiset.filter_cons]
    by_cases hy : a < y <;> simp [hy] <;> omega

lemma multiset_filter_card_mono {s : Multiset ℚ} {p q : ℚ → Prop}
    [DecidablePred p] [DecidablePred q] (h : ∀ x, p x → q x) :
    (s.filter p).card ≤ (s.filter q).card := by
  induction s using Multiset.induction_on with
  | empty => simp
  | cons a t ih =>
    rw [Multiset.filter_cons, Multiset.filter_cons, Multiset.card_add, Multiset.card_add]
    by_cases hp : p a
    · simp only [hp, if_pos, h a hp]
      simpa using ih
    · by_cases hq : q a <;> simp [hp, hq] <;> omega

/-- The heart of the termination argument: swapping a pending candidate of
value `c` with an assigned incumbent of value `v < c` strictly decreases
the inversion count. -/
lemma invCountM_swap_lt {U A : Multiset ℚ} {v c : ℚ} (hvc : v < c) :
    invCountM (v ::ₘ U) (c ::ₘ A) < invCountM (c ::ₘ U) (v ::ₘ A) := by
  rw [invCountM_consA, invCountM_consA, invCountM_consU, invCountM_consU,
    Multiset.filter_cons, Multiset.filter_cons]
  have m1 : (A.filter (fun x => x < v)).card ≤ (A.filter (fun x => x < c)).card :=
    multiset_filter_card_mono (fun x hx => lt_trans hx hvc)
  have m2 : (U.filter (fun y => c < y)).card ≤ (U.filter (fun y => v < y)).card :=
    multiset_filter_card_mono (fun x hx => lt_trans hvc hx)
  have hnc : ¬ c < v := not_lt_of_lt hvc
  simp only [hvc, hnc, if_pos, if_neg, not_false_iff]
  simp only [Multiset.card_add]
  simp
  omega

/-- `invMeasure` is `invCountM` on the value multisets. -/
lemma invMeasure_eq (ev : Player → ℚ) (uns : List Player) (asg : List PlayerSlot) :
    invMeasure ev uns asg =
      invCountM (↑(uns.map ev)) (↑(asg.map fun a => ev a.player)) := by
  simp only [invMeasure, invCountM, Multiset.map_coe, Multiset.sum_coe, List.map_map]
  congr 1
  apply List.map_congr_left
  intro a _
  have : Multiset.filter (fun y => (ev a.player) < y) (↑(uns.map ev)) =
      ↑((uns.map ev).filter fun y => decide (ev a.player < y)) := by
    simp [Multiset.filter_coe]
  rw [Function.comp_apply, this]
  simp only [Multiset.coe_card, List.filter_map, List.length_map]
  rfl

end MeasureLemmas

section RunDispLemmas

open KS

/-- Each displacement swap strictly decreases `invMeasure`. -/
lemma invMeasure_swap_lt (ev : Player → ℚ) {uns rest : List Player} {asg : List PlayerSlot}
    {c : Player} {j : Nat} {t : PlayerSlot}
    (hperm : List.Perm (c :: rest) uns)
    (ht : asg[j]? = some t)
    (hlt : ev t.player < ev c) :
    invMeasure ev (rest ++ [t.player]) (asg.set j ⟨c, t.slot⟩) < invMeasure ev uns asg := by
  obtain ⟨hdec, hset⟩ := list_set_decomp asg j t ⟨c, t.slot⟩ ht
  rw [invMeasure_eq, invMeasure_eq]
  have hU1 : (↑((rest ++ [t.player]).map ev) : Multiset ℚ) =
      ev t.player ::ₘ ↑(rest.map ev) := by
    rw [Multiset.cons_coe, Multiset.coe_eq_coe]
    simpa using List.perm_append_singleton (ev t.player) (rest.map ev)
  have hU2 : (↑(uns.map ev) : Multiset ℚ) = ev c ::ₘ ↑(rest.map ev) := by
    rw [Multiset.cons_coe, Multiset.coe_eq_coe]
    simpa using (hperm.map ev).symm
  have hA1 : (↑((asg.set j ⟨c, t.slot⟩).map fun a => ev a.player) : Multiset ℚ) =
      ev c ::ₘ ↑(((asg.take j).map fun a => ev a.player) ++
        ((asg.drop (j + 1)).map fun a => ev a.player)) := by
    rw [Multiset.cons_coe, Multiset.coe_eq_coe, hset]
    simpa using List.perm_middle
  have hA2 : (↑(asg.map fun a => ev a.player) : Multiset ℚ) =
      ev t.player ::ₘ ↑(((asg.take j).map fun a => ev a.player) ++
        ((asg.drop (j + 1)).map fun a => ev a.player)) := by
    rw [Multiset.cons_coe, Multiset.coe_eq_coe]
    conv_lhs => rw [hdec]
    simpa using List.perm_middle
  rw [hU1, hU2, hA1, hA2]
  exact invCountM_swap_lt hlt

/-- With enough fuel the displacement loop reaches its exit condition:
either the pending list is empty or a full scan finds no swap. -/
lemma runDisp_converged (ev : Player → ℚ) :
    ∀ (fuel : Nat) (uns : List Player) (asg : List PlayerSlot),
      invMeasure ev uns asg < fuel →
      (runDisp ev fuel uns asg).1 = [] ∨
        findSwap ev (runDisp ev fuel uns asg).2 (runDisp ev fuel uns asg).1 = none := by
  intro fuel
  induction fuel with
  | zero => intro uns asg h; omega
  | succ n ih =>
    intro uns asg h
    by_cases hu : uns = []
    · left; simp [KS.runDisp, hu]
    · simp only [KS.runDisp, if_neg hu]
      rcases hfs : findSwap ev asg (sortOrd (fun a b => decide (ev b ≤ ev a)) uns)
        with _ | ⟨c, rest, j⟩
      · right; dsimp only; exact hfs
      · obtain ⟨hperm, v, hbt, hlt⟩ := findSwap_some ev asg _ c rest j hfs
        obtain ⟨t, htj, _, hvt⟩ := bestTarget_some ev c asg (j, v) hbt
        have htj2 : asg[j]? = some t := htj
        dsimp only
        rw [htj2]
        dsimp only
        apply ih
        have hvt2 : ev t.player = v := hvt
        have hdec := invMeasure_swap_lt ev
          (hperm.trans (sortOrd_perm _ uns)) htj2 (by rw [hvt2]; exact hlt)
        omega

/-- The displacement loop permutes players between the pending list and the
assigned pairings but neither creates nor loses any. -/
lemma runDisp_union_perm (ev : Player → ℚ) :
    ∀ (fuel : Nat) (uns : List Player) (asg : List PlayerSlot),
      List.Perm
        ((runDisp ev fuel uns asg).1 ++ ((runDisp ev fuel uns asg).2.map (·.player)))
        (uns ++ asg.map (·.player)) := by
  intro fuel
  induction fuel with
  | zero => intro uns asg; exact List.Perm.refl _
  | succ n ih =>
    intro uns asg
    by_cases hu : uns = []
    · simp [KS.runDisp, hu]
    · simp only [KS.runDisp, if_neg hu]
      rcases hfs : findSwap ev asg (sortOrd (fun a b => decide (ev b ≤ ev a)) uns)
        with _ | ⟨c, rest, j⟩
      · dsimp only
        exact ((sortOrd_perm _ uns).append_right _)
      · obtain ⟨hperm, v, hbt, hlt⟩ := findSwap_some ev asg _ c rest j hfs
        obtain ⟨t, htj, _, hvt⟩ := bestTarget_some ev c asg (j, v) hbt
        have htj2 : asg[j]? = some t := htj
        dsimp only
        rw [htj2]
        dsimp only
        refine (ih _ _).trans ?_
        have hpu : List.Perm (c :: rest) uns := hperm.trans (sortOrd_perm _ uns)
        obtain ⟨hdec, hset⟩ := list_set_decomp asg j t ⟨c, t.slot⟩ htj2
        set M := ((asg.take j).map (·.player)) ++ ((asg.drop (j + 1)).map (·.player)) with hM
        have e3p : List.Perm ((asg.set j ⟨c, t.slot⟩).map (·.player)) (c :: M) := by
          rw [hset, hM]
          simpa using List.perm_middle
        have e2p : List.Perm (asg.map (·.player)) (t.player :: M) := by
          conv_lhs => rw [hdec]
          rw [hM]
          simpa using List.perm_middle
        refine List.Perm.trans
          (List.Perm.append (List.perm_append_singleton t.player rest) e3p) ?_
        refine List.Perm.trans ?_ (hpu.append e2p.symm)
        have a1 : List.Perm (t.player :: (rest ++ c :: M)) (t.player :: (c :: (rest ++ M))) :=
          (List.perm_middle).cons t.player
        have a2 : List.Perm (t.player :: c :: (rest ++ M)) (c :: t.player :: (rest ++ M)) :=
          List.Perm.swap c t.player (rest ++ M)
        have a3 : List.Perm (c :: (t.player :: (rest ++ M))) (c :: (rest ++ t.player :: M)) :=
          (List.perm_middle.symm).cons c
        exact (a1.trans a2).trans a3

/-- The displacement loop never changes the slots held by the assigned
list (a displacement puts the candidate into the displaced player's slot). -/
lemma runDisp_slots (ev : Player → ℚ) :
    ∀ (fuel : Nat) (uns : List Player) (asg : List PlayerSlot),
      ((runDisp ev fuel uns asg).2).map (·.slot) = asg.map (·.slot) := by
  intro fuel
  induction fuel with
  | zero => intro uns asg; rfl
  | succ n ih =>
    intro uns asg
    by_cases hu : uns = []
    · simp [KS.runDisp, hu]
    · simp only [KS.runDisp, if_neg hu]
      rcases hfs : findSwap ev asg (sortOrd (fun a b => decide (ev b ≤ ev a)) uns)
        with _ | ⟨c, rest, j⟩
      · rfl
      · obtain ⟨hperm, v, hbt, hlt⟩ := findSwap_some ev asg _ c rest j hfs
        obtain ⟨t, htj, _, hvt⟩ := bestTarget_some ev c asg (j, v) hbt
        have htj2 : asg[j]? = some t := htj
        dsimp only
        rw [htj2]
        dsimp only
        rw [ih]
        obtain ⟨hdec, hset⟩ := list_set_decomp asg j t ⟨c, t.slot⟩ htj
        rw [hset]
        conv_rhs => rw [hdec]
        simp

end RunDispLemmas

section AfpLemmas

open KS

lemma afpFold_spec (slots : List TimeRange) :
    ∀ (l : List Player) (acc : List PlayerSlot × List Player),
      ∃ extraA extraU,
        (l.foldl (afpStep slots) acc).1 = acc.1 ++ extraA ∧
        (l.foldl (afpStep slots) acc).2 = acc.2 ++ extraU ∧
        List.Perm ((extraA.map (·.player)) ++ extraU) l := by
  intro l
  induction l with
  | nil => intro acc; exact ⟨[], [], by simp, by simp, List.Perm.refl _⟩
  | cons c cs ih =>
    intro acc
    rw [List.foldl_cons]
    rcases hfind : slots.find? (fun s =>
        !(acc.1.any fun ap => decide (ap.slot.start = s.start)) &&
        isSlotAvailable c s.start s.stop) with _ | slot
    · have hstep : afpStep slots acc c = (acc.1, acc.2 ++ [c]) := by
        simp only [KS.afpStep, hfind]
      rw [hstep]
      obtain ⟨eA, eU, h1, h2, hperm⟩ := ih (acc.1, acc.2 ++ [c])
      refine ⟨eA, c :: eU, by simpa using h1, ?_, ?_⟩
      · rw [h2]; simp
      · exact (List.perm_middle).trans (hperm.cons c)
    · have hstep : afpStep slots acc c = (acc.1 ++ [⟨c, slot⟩], acc.2) := by
        simp only [KS.afpStep, hfind]
      rw [hstep]
      obtain ⟨eA, eU, h1, h2, hperm⟩ := ih (acc.1 ++ [⟨c, slot⟩], acc.2)
      refine ⟨⟨c, slot⟩ :: eA, eU, ?_, by simpa using h2, ?_⟩
      · rw [h1]; simp
      · simpa using hperm.cons c

lemma afpFold_starts (slots : List TimeRange) :
    ∀ (l : List Player) (acc : List PlayerSlot × List Player),
      (acc.1.map (·.slot.start)).Nodup →
      ((l.foldl (afpStep slots) acc).1.map (·.slot.start)).Nodup := by
  intro l
  induction l with
  | nil => intro acc h; exact h
  | cons c cs ih =>
    intro acc h
    rw [List.foldl_cons]
    apply ih
    rcases hfind : slots.find? (fun s =>
        !(acc.1.any fun ap => decide (ap.slot.start = s.start)) &&
        isSlotAvailable c s.start s.stop) with _ | slot
    · have hstep : afpStep slots acc c = (acc.1, acc.2 ++ [c]) := by
        simp only [KS.afpStep, hfind]
      rw [hstep]
      exact h
    · have hstep : afpStep slots acc c = (acc.1 ++ [⟨c, slot⟩], acc.2) := by
        simp only [KS.afpStep, hfind]
      rw [hstep]
      have hp := List.find?_some hfind
      have hnotin : slot.start ∉ acc.1.map (·.slot.start) := by
        intro hmem
        obtain ⟨ap, hap, hapstart⟩ := List.mem_map.mp hmem
        have : acc.1.any (fun ap => decide (ap.slot.start = slot.start)) = true :=
          List.any_eq_true.mpr ⟨ap, hap, by simp [hapstart]⟩
        simp [Bool.and_eq_true, this] at hp
      have hperm : List.Perm (acc.1.map (·.slot.start) ++ [slot.start])
          (slot.start :: acc.1.map (·.slot.start)) :=
        List.perm_append_singleton _ _
      show ((acc.1 ++ [({ player := c, slot := slot } : PlayerSlot)]).map
        (fun x => x.slot.start)).Nodup
      rw [List.map_append]
      dsimp only [List.map_cons, List.map_nil]
      rw [hperm.nodup_iff]
      exact List.nodup_cons.mpr ⟨hnotin, h⟩

end AfpLemmas

/-- Claim C6.  After `performDisplacement` returns, no pending candidate has
a strictly higher evaluator value than every slot-compatible assigned
incumbent: for every pending candidate with at least one slot-compatible
incumbent, some compatible incumbent has value at least the candidate's. -/
theorem c6_displacement_monotonic (uns : List KS.Player) (asg : List KS.PlayerSlot)
    (ev : KS.Player → ℚ) (p : KS.Player)
    (hp : p ∈ (KS.performDisplacement uns asg ev).1)
    (hcompat : ∃ a ∈ (KS.performDisplacement uns asg ev).2,
      KS.isSlotAvailable p a.slot.start a.slot.stop = true) :
    ∃ a ∈ (KS.performDisplacement uns asg ev).2,
      KS.isSlotAvailable p a.slot.start a.slot.stop = true ∧ ev p ≤ ev a.player := by
  obtain ⟨a0, ha0, hav0⟩ := hcompat
  simp only [KS.performDisplacement] at hp ha0 ⊢
  have hconv := runDisp_converged ev (KS.invMeasure ev uns asg + 1) uns asg (by omega)
  rcases hconv with hemp | hnone
  · rw [hemp] at hp
    simp at hp
  · cases hbt : KS.bestTarget ev p (KS.runDisp ev (KS.invMeasure ev uns asg + 1) uns asg).2 with
    | none =>
      have hfalse := bestTarget_none ev p _ hbt a0 ha0
      rw [hav0] at hfalse
      simp at hfalse
    | some jv =>
      have hle : ev p ≤ jv.2 := findSwap_none ev _ _ hnone p hp jv hbt
      obtain ⟨t, htj, havt, hvt⟩ := bestTarget_some ev p _ jv hbt
      refine ⟨t, List.getElem?_mem htj, havt, ?_⟩
      rw [← hvt] at hle
      exact hle

/-- Witness for C6: a pending candidate of value 3 faces an incumbent of
value 5 in a compatible slot; after the (here trivial) displacement run the
incumbent's value is at least the candidate's. -/
theorem c6_witness :
    scrP "lo" 3 ∈ (KS.performDisplacement [scrP "lo" 3]
      [⟨scrP "hi" 5, scrSlot⟩] (fun p => p.construction)).1 ∧
    ∃ a ∈ (KS.performDisplacement [scrP "lo" 3]
        [⟨scrP "hi" 5, scrSlot⟩] (fun p => p.construction)).2,
      KS.isSlotAvailable (scrP "lo" 3) a.slot.start a.slot.stop = true ∧
        (scrP "lo" 3).construction ≤ a.player.construction :=
  ⟨by decide,
    c6_displacement_monotonic [scrP "lo" 3] [⟨scrP "hi" 5, scrSlot⟩]
      (fun p => p.construction) (scrP "lo" 3) (by decide)
      ⟨⟨scrP "hi" 5, scrSlot⟩, by decide, by decide⟩⟩

/-- Claim C7.  The displacement loop terminates: with the fuel supplied by
`performDisplacement` the loop reaches its exit condition (empty pending
list or a full scan without a swap), and every swap found by `findSwap`
strictly exceeds the displaced incumbent's value (ties never swap) and
replaces exactly one assigned value by a strictly larger one, so the
assigned value multiset (and its sum) strictly increases with each swap. -/
theorem c7_performDisplacement_terminates (ev : KS.Player → ℚ) :
    (∀ (uns : List KS.Player) (asg : List KS.PlayerSlot),
      (KS.performDisplacement uns asg ev).1 = [] ∨
        KS.findSwap ev (KS.performDisplacement uns asg ev).2
          (KS.performDisplacement uns asg ev).1 = none) ∧
    (∀ (uns rest : List KS.Player) (asg : List KS.PlayerSlot) (c : KS.Player) (j : Nat),
      KS.findSwap ev asg (KS.sortOrd (fun a b => decide (ev b ≤ ev a)) uns)
          = some (c, rest, j) →
      ∃ t, asg[j]? = some t ∧ ev t.player < ev c ∧
        (↑((asg.set j ⟨c, t.slot⟩).map fun a => ev a.player) : Multiset ℚ) +
            {ev t.player} =
          (↑(asg.map fun a => ev a.player) : Multiset ℚ) + {ev c} ∧
        ((asg.set j ⟨c, t.slot⟩).map fun a => ev a.player).sum =
          (asg.map fun a => ev a.player).sum + (ev c - ev t.player)) := by
  constructor
  · intro uns asg
    simp only [KS.performDisplacement]
    exact runDisp_converged ev _ uns asg (by omega)
  · intro uns rest asg c j hfs
    obtain ⟨hperm, v, hbt, hlt⟩ := findSwap_some ev asg _ c rest j hfs
    obtain ⟨t, htj, havt, hvt⟩ := bestTarget_some ev c asg (j, v) hbt
    have htj2 : asg[j]? = some t := htj
    have hvt2 : ev t.player = v := hvt
    obtain ⟨hdec, hset⟩ := list_set_decomp asg j t ⟨c, t.slot⟩ htj2
    have coeMid : ∀ (A B : List KS.PlayerSlot) (x : KS.PlayerSlot),
        (↑((A ++ x :: B).map fun a => ev a.player) : Multiset ℚ) =
          ev x.player ::ₘ ↑((A.map fun a => ev a.player) ++ (B.map fun a => ev a.player)) := by
      intro A B x
      rw [Multiset.cons_coe, Multiset.coe_eq_coe]
      simpa using List.perm_middle
    refine ⟨t, htj2, by rw [hvt2]; exact hlt, ?_, ?_⟩
    · rw [hset]
      conv_rhs => rw [hdec]
      rw [coeMid, coeMid]
      simp only [← Multiset.singleton_add]
      abel
    · rw [hset]
      conv_rhs => rw [hdec]
      simp only [List.map_append, List.map_cons, List.sum_append, List.sum_cons]
      ring

/-- Witness for C7: a concrete swap opportunity (pending value 5 against
incumbent value 3) satisfies the swap characterisation of the theorem. -/
theorem c7_witness :
    ∃ t, ([({ player := scrP "lo" 3, slot := scrSlot } : KS.PlayerSlot)][0]?) = some t ∧
      t.player.construction < (scrP "hi" 5).construction ∧
      (↑(([({ player := scrP "lo" 3, slot := scrSlot } : KS.PlayerSlot)].set 0
          ⟨scrP "hi" 5, t.slot⟩).map fun a => a.player.construction) : Multiset ℚ) +
        {t.player.construction} =
      (↑([({ player := scrP "lo" 3, slot := scrSlot } : KS.PlayerSlot)].map
          fun a => a.player.construction) : Multiset ℚ) +
        {(scrP "hi" 5).construction} ∧
      (([({ player := scrP "lo" 3, slot := scrSlot } : KS.PlayerSlot)].set 0
          ⟨scrP "hi" 5, t.slot⟩).map fun a => a.player.construction).sum =
        ([({ player := scrP "lo" 3, slot := scrSlot } : KS.PlayerSlot)].map
          fun a => a.player.construction).sum +
          ((scrP "hi" 5).construction - t.player.construction) :=
  (c7_performDisplacement_terminates (fun p => p.construction)).2
    [scrP "hi" 5] [] [⟨scrP "lo" 3, scrSlot⟩] (scrP "hi" 5) 0 (by decide)

/-- Claim C10.  Starting from an empty assigned list with pairwise-distinct
pending players, after `assignFirstPass` (and after any subsequent
`performDisplacement` call) the assigned pairings have pairwise-distinct
slot start times, pairwise-distinct players, and no player occurs both in
an assigned pairing and in the pending list.  The `Nodup` hypothesis
renders the fact that distinct JavaScript player objects are distinct
references. -/
theorem c10_one_slot_per_player (pending : List KS.Player) (slots : List KS.TimeRange)
    (ev : KS.Player → ℚ) (hnd : pending.Nodup) :
    (((KS.assignFirstPass pending slots []).1.map (·.slot.start)).Nodup ∧
     ((KS.assignFirstPass pending slots []).1.map (·.player)).Nodup ∧
     ∀ q ∈ (KS.assignFirstPass pending slots []).1.map (·.player),
       q ∉ (KS.assignFirstPass pending slots []).2) ∧
    (((KS.performDisplacement (KS.assignFirstPass pending slots []).2
          (KS.assignFirstPass pending slots []).1 ev).2.map (·.slot.start)).Nodup ∧
     ((KS.performDisplacement (KS.assignFirstPass pending slots []).2
          (KS.assignFirstPass pending slots []).1 ev).2.map (·.player)).Nodup ∧
     ∀ q ∈ (KS.performDisplacement (KS.assignFirstPass pending slots []).2
          (KS.assignFirstPass pending slots []).1 ev).2.map (·.player),
       q ∉ (KS.performDisplacement (KS.assignFirstPass pending slots []).2
          (KS.assignFirstPass pending slots []).1 ev).1) := by
  have hafp : KS.assignFirstPass pending slots [] =
      (KS.sortOrd (fun a b =>
        decide (KS.getTotalAvailableMinutes a ≤ KS.getTotalAvailableMinutes b)) pending).foldl
        (KS.afpStep slots) ([], []) := rfl
  obtain ⟨eA, eU, h1, h2, hperm⟩ := afpFold_spec slots
    (KS.sortOrd (fun a b =>
      decide (KS.getTotalAvailableMinutes a ≤ KS.getTotalAvailableMinutes b)) pending) ([], [])
  have h1a : (KS.assignFirstPass pending slots []).1 = eA := by rw [hafp, h1]; simp
  have h2a : (KS.assignFirstPass pending slots []).2 = eU := by rw [hafp, h2]; simp
  have hpermp : List.Perm ((eA.map (·.player)) ++ eU) pending :=
    hperm.trans (sortOrd_perm _ pending)
  have hndAll : ((eA.map (·.player)) ++ eU).Nodup := hpermp.nodup_iff.mpr hnd
  have hstarts : ((KS.assignFirstPass pending slots []).1.map (·.slot.start)).Nodup := by
    rw [hafp]
    exact afpFold_starts slots _ ([], []) (by simp)
  have hdisj := List.disjoint_of_nodup_append hndAll
  refine ⟨⟨hstarts, ?_, ?_⟩, ?_⟩
  · rw [h1a]; exact hndAll.of_append_left
  · intro q hq
    rw [h2a]
    exact hdisj (by rw [h1a] at hq; exact hq)
  · have hup := runDisp_union_perm ev
      (KS.invMeasure ev (KS.assignFirstPass pending slots []).2
        (KS.assignFirstPass pending slots []).1 + 1)
      (KS.assignFirstPass pending slots []).2 (KS.assignFirstPass pending slots []).1
    have hndD : ((KS.performDisplacement (KS.assignFirstPass pending slots []).2
        (KS.assignFirstPass pending slots []).1 ev).1 ++
        ((KS.performDisplacement (KS.assignFirstPass pending slots []).2
          (KS.assignFirstPass pending slots []).1 ev).2.map (·.player))).Nodup := by
      simp only [KS.performDisplacement]
      rw [hup.nodup_iff]
      rw [h1a, h2a]
      exact (List.perm_append_comm.trans hpermp).nodup_iff.mpr hnd
    have hslots := runDisp_slots ev
      (KS.invMeasure ev (KS.assignFirstPass pending slots []).2
        (KS.assignFirstPass pending slots []).1 + 1)
      (KS.assignFirstPass pending slots []).2 (KS.assignFirstPass pending slots []).1
    refine ⟨?_, hndD.of_append_right, ?_⟩
    · have : (KS.performDisplacement (KS.assignFirstPass pending slots []).2
          (KS.assignFirstPass pending slots []).1 ev).2.map (·.slot.start) =
          (KS.assignFirstPass pending slots []).1.map (·.slot.start) := by
        simp only [KS.performDisplacement]
        have e1 := congrArg (List.map (·.start)) hslots
        simpa [List.map_map, Function.comp] using e1
      rw [this]
      exact hstarts
    · intro q hq
      exact (List.disjoint_of_nodup_append hndD).symm hq

namespace KS

theorem ratDiv_eq (a b : ℚ) : ratDiv a b = a / b := (Rat.div_def' a b).symm

theorem jsRound_eq (q : ℚ) : jsRound q = ⌊q + 1 / 2⌋ := by
  rw [jsRound, Rat.divInt_eq_div]
  norm_num

end KS

/-- Claim C1, counterexample.  A roster with the single player `gap`
(construction 15, research 10, soldier training 0) at threshold 20:
the player meets the combined construction+research eligibility threshold
(15 + 10 = 25 >= 20) and is processed (not filtered out), yet ends the run
with no appointment on any day, absent from the waiting list and absent
from the filtered-out set — the coverage claim fails because no pass
handles players eligible only by the combined sum, and no reconciliation
pass exists. -/
theorem c1_coverage_counterexample :
    ((20:ℚ) ≤ 15 + 10) ∧
    (KS.calculateScheduleData [⟨"A", "gap", 0, "", 0, 15, 10, 0, []⟩] 20 1 2).processedPlayers
      = [⟨"A", "gap", 0, "", 0, 15, 10, 0, []⟩] ∧
    (KS.calculateScheduleData [⟨"A", "gap", 0, "", 0, 15, 10, 0, []⟩] 20 1 2).waitingList = [] ∧
    (KS.calculateScheduleData [⟨"A", "gap", 0, "", 0, 15, 10, 0, []⟩] 20 1 2).filteredOut = [] ∧
    ((List.range 8).map fun d =>
        (KS.calculateScheduleData [⟨"A", "gap", 0, "", 0, 15, 10, 0, []⟩] 20 1 2).state.ministers d ++
        (KS.calculateScheduleData [⟨"A", "gap", 0, "", 0, 15, 10, 0, []⟩] 20 1 2).state.advisors d)
      = List.replicate 8 [] := by decide

/-- Claim C3, counterexample.  Three players share the sole availability
window 09:00-09:10: `q1` (construction 30) takes day 1, `q2` (research 30)
takes day 2, and `p` (construction 25) finds its only compatible slot
taken on both king days, so the spillover loop places `p` on the remaining
day 5.  The successful spillover placement sets only the construction flag;
the research flag stays `false`, refuting "every successful spillover
placement sets both flags". -/
theorem c3_spillover_counterexample :
    (((KS.calculateScheduleData
        [⟨"A", "q1", 0, "", 0, 30, 0, 0, [⟨"09:00", "09:10"⟩]⟩,
         ⟨"A", "q2", 0, "", 0, 0, 30, 0, [⟨"09:00", "09:10"⟩]⟩,
         ⟨"A", "p", 0, "", 0, 25, 0, 0, [⟨"09:00", "09:10"⟩]⟩] 20 1 2).state.ministers 5).map
      fun a => a.player) = ["p"] ∧
    (KS.calculateScheduleData
        [⟨"A", "q1", 0, "", 0, 30, 0, 0, [⟨"09:00", "09:10"⟩]⟩,
         ⟨"A", "q2", 0, "", 0, 0, 30, 0, [⟨"09:00", "09:10"⟩]⟩,
         ⟨"A", "p", 0, "", 0, 25, 0, 0, [⟨"09:00", "09:10"⟩]⟩] 20 1 2).state.constructionAssignments
      "p-A" = true ∧
    (KS.calculateScheduleData
        [⟨"A", "q1", 0, "", 0, 30, 0, 0, [⟨"09:00", "09:10"⟩]⟩,
         ⟨"A", "q2", 0, "", 0, 0, 30, 0, [⟨"09:00", "09:10"⟩]⟩,
         ⟨"A", "p", 0, "", 0, 25, 0, 0, [⟨"09:00", "09:10"⟩]⟩] 20 1 2).state.researchAssignments
      "p-A" = false := by decide

/-- Claim C4, counterexample.  A king-day minister appointment records the
single rounded relevant score, not the composite `construction / research`
string: the solo player (construction 25, research 3) gets day-1 speedups
`"25"`, not `"25 / 3"`.  And a day-4 overflow minister appointment records
the two-part `construction / research` composite (here `"0 / 5"` for a
player with soldier training 25), not a three-part string mentioning
training.  The advisor format (single rounded number) is as claimed. -/
theorem c4_formats_counterexample :
    (((KS.calculateScheduleData [⟨"A", "solo", 0, "", 0, 25, 3, 0, []⟩] 20 1 2).state.ministers 1).map
      fun a => a.speedups) = [.str "25"] ∧
    (((KS.calculateScheduleData [⟨"A", "solo", 0, "", 0, 25, 3, 0, []⟩] 20 1 2).state.ministers 1).map
      fun a => a.speedups) ≠ [.str ("25" ++ " / " ++ "3")] ∧
    (((KS.calculateScheduleData
        [⟨"A", "t1", 0, "", 30, 0, 0, 0, [⟨"09:00", "09:10"⟩]⟩,
         ⟨"A", "t2", 0, "", 25, 0, 5, 0, [⟨"09:00", "09:10"⟩]⟩] 20 1 2).state.advisors 4).map
      fun a => a.speedups) = [.num 30] ∧
    (((KS.calculateScheduleData
        [⟨"A", "t1", 0, "", 30, 0, 0, 0, [⟨"09:00", "09:10"⟩]⟩,
         ⟨"A", "t2", 0, "", 25, 0, 5, 0, [⟨"09:00", "09:10"⟩]⟩] 20 1 2).state.ministers 4).map
      fun a => a.speedups) = [.str ("0" ++ " / " ++ "5")] := by decide

section SStateLemmas

namespace KS

theorem setFlag_ministers (st : SState) (k : FlagKind) (pid : String) (b : Bool) :
    (st.setFlag k pid b).ministers = st.ministers := by
  cases k <;> rfl

theorem setFlag_advisors (st : SState) (k : FlagKind) (pid : String) (b : Bool) :
    (st.setFlag k pid b).advisors = st.advisors := by
  cases k <;> rfl

theorem pushMinister_flags (st : SState) (day : Nat) (app : Appointment) :
    (st.pushMinister day app).constructionAssignments = st.constructionAssignments ∧
    (st.pushMinister day app).researchAssignments = st.researchAssignments ∧
    (st.pushMinister day app).trainingAssignments = st.trainingAssignments :=
  ⟨rfl, rfl, rfl⟩

theorem getFlag_setFlag (st : SState) (k k' : FlagKind) (pid pid' : String) (b : Bool) :
    (st.setFlag k pid b).getFlag k' pid' =
      if k' = k ∧ pid' = pid then b else st.getFlag k' pid' := by
  cases k <;> cases k' <;>
    simp only [SState.setFlag, SState.getFlag] <;>
    by_cases h : pid' = pid <;> simp [h]

end KS

end SStateLemmas

/-- Claim C3 (amended).  In the spillover loop over the priority days, a
waiting candidate is attempted on the non-king day only if they do not
already hold both the construction and the research flags (both flags held
means the step leaves state and list unchanged); a successful placement
sets exactly one flag: the construction flag if it was unset (research
unchanged), otherwise the research flag. -/
theorem c3_spillover_gating (filtered : List KS.Player) (cd rd day : Nat)
    (acc : KS.SState × List KS.WaitingPlayer) (wp : KS.WaitingPlayer)
    (hcd : day ≠ cd) (hrd : day ≠ rd) :
    (acc.1.constructionAssignments (wp.player ++ "-" ++ wp.alliance) = true ∧
     acc.1.researchAssignments (wp.player ++ "-" ++ wp.alliance) = true →
      KS.spilloverStep filtered cd rd day acc wp = acc) ∧
    (KS.spilloverStep filtered cd rd day acc wp = acc ∨
      (acc.1.constructionAssignments (wp.player ++ "-" ++ wp.alliance) = false ∧
       (KS.spilloverStep filtered cd rd day acc wp).1.constructionAssignments
          (wp.player ++ "-" ++ wp.alliance) = true ∧
       (KS.spilloverStep filtered cd rd day acc wp).1.researchAssignments
          (wp.player ++ "-" ++ wp.alliance) =
         acc.1.researchAssignments (wp.player ++ "-" ++ wp.alliance)) ∨
      (acc.1.constructionAssignments (wp.player ++ "-" ++ wp.alliance) = true ∧
       acc.1.researchAssignments (wp.player ++ "-" ++ wp.alliance) = false ∧
       (KS.spilloverStep filtered cd rd day acc wp).1.researchAssignments
          (wp.player ++ "-" ++ wp.alliance) = true ∧
       (KS.spilloverStep filtered cd rd day acc wp).1.constructionAssignments
          (wp.player ++ "-" ++ wp.alliance) = true)) := by
  by_cases hmem : wp ∉ acc.2
  · rw [KS.spilloverStep, if_pos hmem]
    exact ⟨fun _ => rfl, Or.inl rfl⟩
  · rcases hfp : KS.findPlayer filtered wp with _ | player
    · rw [KS.spilloverStep, if_neg hmem]
      simp only [hfp]
      exact ⟨fun _ => trivial, Or.inl trivial⟩
    · by_cases hc : acc.1.constructionAssignments (wp.player ++ "-" ++ wp.alliance) = true
      · by_cases hr : acc.1.researchAssignments (wp.player ++ "-" ++ wp.alliance) = true
        · have hstep : KS.spilloverStep filtered cd rd day acc wp = acc := by
            rw [KS.spilloverStep, if_neg hmem]
            simp only [hfp]
            rw [if_neg hcd, if_neg hrd]
            simp [hc, hr]
          exact ⟨fun _ => hstep, Or.inl hstep⟩
        · have hr' : acc.1.researchAssignments (wp.player ++ "-" ++ wp.alliance) = false :=
            Bool.eq_false_iff.mpr hr
          have hstep : KS.spilloverStep filtered cd rd day acc wp =
              (match KS.generateTimeSlots.find? (fun s =>
                  !(decide (s.start ∈ (acc.1.ministers day).map (fun a => a.start))) &&
                    KS.isSlotAvailable player s.start s.stop) with
               | none => acc
               | some slot =>
                 ((acc.1.pushMinister day (KS.mkSpillApp wp slot)).setFlag .research
                    (wp.player ++ "-" ++ wp.alliance) true, acc.2.erase wp)) := by
            rw [KS.spilloverStep, if_neg hmem]
            simp only [hfp]
            rw [if_neg hcd, if_neg hrd]
            simp [hc, hr']
          rcases hfs : KS.generateTimeSlots.find? (fun s =>
              !(decide (s.start ∈ (acc.1.ministers day).map (fun a => a.start))) &&
                KS.isSlotAvailable player s.start s.stop) with _ | slot
          · rw [hfs] at hstep
            exact ⟨fun h => absurd h.2 hr, Or.inl hstep⟩
          · rw [hfs] at hstep
            refine ⟨fun h => absurd h.2 hr, Or.inr (Or.inr ⟨hc, hr', ?_, ?_⟩)⟩
            · rw [hstep]
              simp [KS.SState.setFlag]
            · rw [hstep]
              simp [KS.SState.setFlag, KS.SState.pushMinister, hc]
      · have hc' : acc.1.constructionAssignments (wp.player ++ "-" ++ wp.alliance) = false :=
          Bool.eq_false_iff.mpr hc
        have hstep : KS.spilloverStep filtered cd rd day acc wp =
            (match KS.generateTimeSlots.find? (fun s =>
                !(decide (s.start ∈ (acc.1.ministers day).map (fun a => a.start))) &&
                  KS.isSlotAvailable player s.start s.stop) with
             | none => acc
             | some slot =>
               ((acc.1.pushMinister day (KS.mkSpillApp wp slot)).setFlag .construction
                  (wp.player ++ "-" ++ wp.alliance) true, acc.2.erase wp)) := by
          rw [KS.spilloverStep, if_neg hmem]
          simp only [hfp]
          rw [if_neg hcd, if_neg hrd]
          simp [hc']
        rcases hfs : KS.generateTimeSlots.find? (fun s =>
            !(decide (s.start ∈ (acc.1.ministers day).map (fun a => a.start))) &&
              KS.isSlotAvailable player s.start s.stop) with _ | slot
        · rw [hfs] at hstep
          exact ⟨fun h => absurd h.1 hc, Or.inl hstep⟩
        · rw [hfs] at hstep
          refine ⟨fun h => absurd h.1 hc, Or.inr (Or.inl ⟨hc', ?_, ?_⟩)⟩
          · rw [hstep]
            simp [KS.SState.setFlag]
          · rw [hstep]
            simp [KS.SState.setFlag, KS.SState.pushMinister]

/-- Witness for the amended claim C3 at a concrete non-king day. -/
theorem c3_witness :
    (5 : ℕ) ≠ 1 ∧ (5 : ℕ) ≠ 2 ∧
    ((KS.initAssignments.constructionAssignments "w-B" = true ∧
      KS.initAssignments.researchAssignments "w-B" = true →
      KS.spilloverStep [] 1 2 5 (KS.initAssignments, []) ⟨"B", "w", 0, 0, 0, 0, ""⟩ =
        (KS.initAssignments, [])) ∧
     (KS.spilloverStep [] 1 2 5 (KS.initAssignments, []) ⟨"B", "w", 0, 0, 0, 0, ""⟩ =
        (KS.initAssignments, []) ∨
      (KS.initAssignments.constructionAssignments "w-B" = false ∧
       (KS.spilloverStep [] 1 2 5 (KS.initAssignments, [])
          ⟨"B", "w", 0, 0, 0, 0, ""⟩).1.constructionAssignments "w-B" = true ∧
       (KS.spilloverStep [] 1 2 5 (KS.initAssignments, [])
          ⟨"B", "w", 0, 0, 0, 0, ""⟩).1.researchAssignments "w-B" =
         KS.initAssignments.researchAssignments "w-B") ∨
      (KS.initAssignments.constructionAssignments "w-B" = true ∧
       KS.initAssignments.researchAssignments "w-B" = false ∧
       (KS.spilloverStep [] 1 2 5 (KS.initAssignments, [])
          ⟨"B", "w", 0, 0, 0, 0, ""⟩).1.researchAssignments "w-B" = true ∧
       (KS.spilloverStep [] 1 2 5 (KS.initAssignments, [])
          ⟨"B", "w", 0, 0, 0, 0, ""⟩).1.constructionAssignments "w-B" = true))) :=
  ⟨by decide, by decide,
    c3_spillover_gating [] 1 2 5 (KS.initAssignments, []) ⟨"B", "w", 0, 0, 0, 0, ""⟩
      (by decide) (by decide)⟩

section FmtLemmas

namespace KS

theorem fmtInv_init : FmtInv initAssignments := fun _ =>
  ⟨fun _ h => absurd h (List.not_mem_nil _), fun _ h => absurd h (List.not_mem_nil _)⟩

theorem fmtInv_setFlag (st : SState) (k : FlagKind) (pid : String) (b : Bool)
    (h : FmtInv st) : FmtInv (st.setFlag k pid b) := by
  intro d
  rw [setFlag_ministers, setFlag_advisors]
  exact h d

theorem fmtInv_pushMinister (st : SState) (day : Nat) (app : Appointment)
    (happ : MinisterFmtOk app) (h : FmtInv st) : FmtInv (st.pushMinister day app) := by
  intro d
  refine ⟨fun a ha => ?_, fun a ha => (h d).2 a ha⟩
  simp only [SState.pushMinister] at ha
  by_cases hd : d = day
  · rw [if_pos hd] at ha
    rcases List.mem_append.mp ha with h1 | h1
    · exact (h d).1 a h1
    · rw [List.mem_singleton.mp h1]
      exact happ
  · rw [if_neg hd] at ha
    exact (h d).1 a ha

theorem fmtInv_pushAdvisor (st : SState) (day : Nat) (app : Appointment)
    (happ : AdvisorFmtOk app) (h : FmtInv st) : FmtInv (st.pushAdvisor day app) := by
  intro d
  refine ⟨fun a ha => (h d).1 a ha, fun a ha => ?_⟩
  simp only [SState.pushAdvisor] at ha
  by_cases hd : d = day
  · rw [if_pos hd] at ha
    rcases List.mem_append.mp ha with h1 | h1
    · exact (h d).2 a h1
    · rw [List.mem_singleton.mp h1]
      exact happ
  · rw [if_neg hd] at ha
    exact (h d).2 a ha

theorem fmtInv_foldl {α : Type} (f : SState → α → SState) (l : List α)
    (hf : ∀ st x, FmtInv st → FmtInv (f st x)) :
    ∀ st, FmtInv st → FmtInv (l.foldl f st) := by
  induction l with
  | nil => exact fun st h => h
  | cons x xs ih => exact fun st h => ih _ (hf st x h)

theorem fmtInv_foldl_pair {α : Type}
    (f : SState × List WaitingPlayer → α → SState × List WaitingPlayer) (l : List α)
    (hf : ∀ acc x, FmtInv acc.1 → FmtInv (f acc x).1) :
    ∀ acc, FmtInv acc.1 → FmtInv (l.foldl f acc).1 := by
  induction l with
  | nil => exact fun acc h => h
  | cons x xs ih => exact fun acc h => ih _ (hf acc x h)

theorem fmtInv_initFlags (l : List Player) (m : ℚ) (st : SState) (h : FmtInv st) :
    FmtInv (initFlags l m st) := by
  refine fmtInv_foldl _ _ (fun st' p h' => ?_) st h
  dsimp only
  split_ifs <;>
    first
      | exact fmtInv_setFlag _ _ _ _ (fmtInv_setFlag _ _ _ _ (fmtInv_setFlag _ _ _ _ h'))
      | exact fmtInv_setFlag _ _ _ _ (fmtInv_setFlag _ _ _ _ h')
      | exact fmtInv_setFlag _ _ _ _ h'
      | exact h'

theorem fmtInv_assignInitialMinisters (day : Nat) (players : List Player)
    (prop : Player → ℚ) (flag : FlagKind) (st : SState) (twl : List WaitingPlayer)
    (h : FmtInv st) : FmtInv (assignInitialMinisters day players prop flag st twl).1 := by
  rw [assignInitialMinisters]
  exact fmtInv_foldl _ _
    (fun st' ps h' =>
      fmtInv_setFlag _ _ _ _ (fmtInv_pushMinister _ _ _ (Or.inl ⟨_, rfl⟩) h')) st h

theorem fmtInv_scheduleTrainingDay (players : List Player) (m : ℚ) (st : SState)
    (twl : List WaitingPlayer) (h : FmtInv st) :
    FmtInv (scheduleTrainingDay players m st twl).1 := by
  rw [scheduleTrainingDay, trainingStage2, trainingStage1]
  refine fmtInv_foldl _ _
    (fun st' ps h' =>
      fmtInv_setFlag _ _ _ _ (fmtInv_pushMinister _ _ _ (Or.inr ⟨_, _, rfl⟩) h')) _
    (fmtInv_foldl _ _
      (fun st' ps h' =>
        fmtInv_setFlag _ _ _ _ (fmtInv_pushAdvisor _ _ _ ⟨_, rfl⟩ h')) st h)

theorem fmtInv_spilloverStep (filtered : List Player) (cd rd day : Nat)
    (acc : SState × List WaitingPlayer) (wp : WaitingPlayer) (h : FmtInv acc.1) :
    FmtInv (spilloverStep filtered cd rd day acc wp).1 := by
  rw [spilloverStep]
  dsimp only
  repeat' split
  all_goals
    first
      | exact h
      | (dsimp only
         refine fmtInv_setFlag _ _ _ _ (fmtInv_pushMinister _ _ _ ?_ h)
         exact Or.inr ⟨_, _, rfl⟩)

theorem fmtInv_spilloverDay (filtered : List Player) (cd rd : Nat) (od : Option Nat)
    (acc : SState × List WaitingPlayer) (day : Nat) (h : FmtInv acc.1) :
    FmtInv (spilloverDay filtered cd rd od acc day).1 := by
  rw [spilloverDay]
  exact fmtInv_foldl_pair _ _ (fun a w h' => fmtInv_spilloverStep filtered cd rd day a w h') acc h

theorem fmtInv_day3Step (filtered : List Player) (m : ℚ)
    (acc : SState × List WaitingPlayer) (wp : WaitingPlayer) (h : FmtInv acc.1) :
    FmtInv (day3Step filtered m acc wp).1 := by
  rw [day3Step]
  dsimp only
  repeat' split
  all_goals
    first
      | exact h
      | (dsimp only
         refine fmtInv_setFlag _ _ _ _ (fmtInv_setFlag _ _ _ _
           (fmtInv_setFlag _ _ _ _ (fmtInv_pushMinister _ _ _ ?_ h)))
         exact Or.inr ⟨_, _, rfl⟩)

end KS

end FmtLemmas

/-- Claim C4 (amended).  Every appointment value produced by a scheduling
run is one of three shapes: every advisor appointment records a single
rounded number; every minister appointment records either a single rounded
score formatted as a string (the king-day minister passes) or the two-part
composite `<construction> / <research>` of rounded scores (the day-4
overflow pass and the consolidation passes).  No appointment composes
three values. -/
theorem c4_value_formats (players : List KS.Player) (minHours : ℚ) (cd rd : Nat) :
    KS.FmtInv (KS.calculateScheduleData players minHours cd rd).state := by
  rw [KS.calculateScheduleData]
  dsimp only
  refine KS.fmtInv_foldl_pair _ _ (fun a w h => KS.fmtInv_day3Step _ _ a w h) _ ?_
  dsimp only
  refine KS.fmtInv_foldl_pair _ _ (fun a d h => KS.fmtInv_spilloverDay _ _ _ _ a d h) _ ?_
  dsimp only
  refine KS.fmtInv_scheduleTrainingDay _ _ _ _ ?_
  refine KS.fmtInv_assignInitialMinisters _ _ _ _ _ _ ?_
  refine KS.fmtInv_assignInitialMinisters _ _ _ _ _ _ ?_
  exact KS.fmtInv_initFlags _ _ _ KS.fmtInv_init

section CoverageLemmas

namespace KS

theorem subApp_refl (st : SState) : SubApp st st :=
  fun _ => ⟨fun _ h => h, fun _ h => h⟩

theorem subApp_trans {s1 s2 s3 : SState} (h1 : SubApp s1 s2) (h2 : SubApp s2 s3) :
    SubApp s1 s3 :=
  fun d => ⟨fun a ha => (h2 d).1 a ((h1 d).1 a ha), fun a ha => (h2 d).2 a ((h1 d).2 a ha)⟩

theorem subApp_setFlag (st : SState) (k : FlagKind) (pid : String) (b : Bool) :
    SubApp st (st.setFlag k pid b) := by
  intro d
  rw [setFlag_ministers, setFlag_advisors]
  exact ⟨fun _ h => h, fun _ h => h⟩

theorem subApp_pushMinister (st : SState) (day : Nat) (app : Appointment) :
    SubApp st (st.pushMinister day app) := by
  intro d
  refine ⟨fun a ha => ?_, fun a ha => ha⟩
  simp only [SState.pushMinister]
  split
  · exact List.mem_append_left _ ha
  · exact ha

theorem subApp_pushAdvisor (st : SState) (day : Nat) (app : Appointment) :
    SubApp st (st.pushAdvisor day app) := by
  intro d
  refine ⟨fun a ha => ha, fun a ha => ?_⟩
  simp only [SState.pushAdvisor]
  split
  · exact List.mem_append_left _ ha
  · exact ha

theorem subApp_foldl {α : Type} (f : SState → α → SState) (l : List α)
    (hf : ∀ st x, SubApp st (f st x)) : ∀ st, SubApp st (l.foldl f st) := by
  induction l with
  | nil => exact fun st => subApp_refl st
  | cons x xs ih => exact fun st => subApp_trans (hf st x) (ih (f st x))

theorem subApp_foldl_pair {α : Type}
    (f : SState × List WaitingPlayer → α → SState × List WaitingPlayer) (l : List α)
    (hf : ∀ acc x, SubApp acc.1 (f acc x).1) : ∀ acc, SubApp acc.1 (l.foldl f acc).1 := by
  induction l with
  | nil => exact fun acc => subApp_refl acc.1
  | cons x xs ih => exact fun acc => subApp_trans (hf acc x) (ih (f acc x))

theorem pushMinister_self_mem (st : SState) (day : Nat) (app : Appointment) :
    app ∈ (st.pushMinister day app).ministers day := by
  simp [SState.pushMinister]

theorem pushAdvisor_self_mem (st : SState) (day : Nat) (app : Appointment) :
    app ∈ (st.pushAdvisor day app).advisors day := by
  simp [SState.pushAdvisor]

theorem getFlag_pushMinister (st : SState) (day : Nat) (app : Appointment)
    (k : FlagKind) (pid : String) :
    (st.pushMinister day app).getFlag k pid = st.getFlag k pid := by
  cases k <;> rfl

theorem getFlag_pushAdvisor (st : SState) (day : Nat) (app : Appointment)
    (k : FlagKind) (pid : String) :
    (st.pushAdvisor day app).getFlag k pid = st.getFlag k pid := by
  cases k <;> rfl

theorem exists_app_mono {st st' : SState} (hsub : SubApp st st') {P : Appointment → Prop}
    (h : ∃ d, ∃ app ∈ st.ministers d ++ st.advisors d, P app) :
    ∃ d, ∃ app ∈ st'.ministers d ++ st'.advisors d, P app := by
  obtain ⟨d, app, hmem, hP⟩ := h
  rcases List.mem_append.mp hmem with h1 | h1
  · exact ⟨d, app, List.mem_append_left _ ((hsub d).1 app h1), hP⟩
  · exact ⟨d, app, List.mem_append_right _ ((hsub d).2 app h1), hP⟩

theorem linkInv_init : LinkInv initAssignments := by
  intro pid k h
  cases k <;> exact absurd h (by simp [initAssignments, SState.getFlag])

theorem linkInv_setFlag_false (st : SState) (k : FlagKind) (pid : String)
    (h : LinkInv st) : LinkInv (st.setFlag k pid false) := by
  intro pid' k' h'
  rw [getFlag_setFlag] at h'
  split at h'
  · exact absurd h' (by simp)
  · obtain ⟨d, app, hmem, hid⟩ := h pid' k' h'
    refine ⟨d, app, ?_, hid⟩
    rw [setFlag_ministers, setFlag_advisors]
    exact hmem

theorem linkInv_setFlag_true (st : SState) (k : FlagKind) (pid : String)
    (hex : ∃ d, ∃ app ∈ st.ministers d ++ st.advisors d, appPid app = pid)
    (h : LinkInv st) : LinkInv (st.setFlag k pid true) := by
  intro pid' k' h'
  rw [getFlag_setFlag] at h'
  by_cases hc : k' = k ∧ pid' = pid
  · obtain ⟨d, app, hmem, hid⟩ := hex
    refine ⟨d, app, ?_, by rw [hid, hc.2]⟩
    rw [setFlag_ministers, setFlag_advisors]
    exact hmem
  · rw [if_neg hc] at h'
    obtain ⟨d, app, hmem, hid⟩ := h pid' k' h'
    refine ⟨d, app, ?_, hid⟩
    rw [setFlag_ministers, setFlag_advisors]
    exact hmem

theorem linkInv_pushMinister (st : SState) (day : Nat) (app : Appointment)
    (h : LinkInv st) : LinkInv (st.pushMinister day app) := by
  intro pid k h'
  rw [getFlag_pushMinister] at h'
  exact exists_app_mono (subApp_pushMinister st day app) (h pid k h')

theorem linkInv_pushAdvisor (st : SState) (day : Nat) (app : Appointment)
    (h : LinkInv st) : LinkInv (st.pushAdvisor day app) := by
  intro pid k h'
  rw [getFlag_pushAdvisor] at h'
  exact exists_app_mono (subApp_pushAdvisor st day app) (h pid k h')

theorem linkInv_foldl {α : Type} (f : SState → α → SState) (l : List α)
    (hf : ∀ st x, LinkInv st → LinkInv (f st x)) :
    ∀ st, LinkInv st → LinkInv (l.foldl f st) := by
  induction l with
  | nil => exact fun _ h => h
  | cons x xs ih => exact fun st h => ih _ (hf st x h)

end KS

end CoverageLemmas

section CoverageLemmas2

namespace KS

theorem linkInv_initFlags (l : List Player) (m : ℚ) (st : SState) (h : LinkInv st) :
    LinkInv (initFlags l m st) := by
  refine linkInv_foldl _ _ (fun st' p h' => ?_) st h
  dsimp only
  split_ifs <;>
    first
      | exact linkInv_setFlag_false _ _ _
          (linkInv_setFlag_false _ _ _ (linkInv_setFlag_false _ _ _ h'))
      | exact linkInv_setFlag_false _ _ _ (linkInv_setFlag_false _ _ _ h')
      | exact linkInv_setFlag_false _ _ _ h'
      | exact h'

theorem subApp_assignInitialMinisters (day : Nat) (players : List Player)
    (prop : Player → ℚ) (flag : FlagKind) (st : SState) (twl : List WaitingPlayer) :
    SubApp st (assignInitialMinisters day players prop flag st twl).1 := by
  rw [assignInitialMinisters]
  exact subApp_foldl _ _
    (fun st' ps => subApp_trans (subApp_pushMinister st' day _) (subApp_setFlag _ _ _ _)) st

theorem linkInv_assignInitialMinisters (day : Nat) (players : List Player)
    (prop : Player → ℚ) (flag : FlagKind) (st : SState) (twl : List WaitingPlayer)
    (h : LinkInv st) : LinkInv (assignInitialMinisters day players prop flag st twl).1 := by
  rw [assignInitialMinisters]
  exact linkInv_foldl _ _
    (fun st' ps h' =>
      linkInv_setFlag_true _ _ _
        ⟨day, mkMinisterApp prop ps,
          List.mem_append_left _ (pushMinister_self_mem st' day _), rfl⟩
        (linkInv_pushMinister st' day _ h')) st h

theorem subApp_trainingStage1 (players : List Player) (st : SState) :
    SubApp st (trainingStage1 players st) := by
  rw [trainingStage1]
  exact subApp_foldl _ _
    (fun st' ps => subApp_trans (subApp_pushAdvisor st' 4 _) (subApp_setFlag _ _ _ _)) st

theorem linkInv_trainingStage1 (players : List Player) (st : SState) (h : LinkInv st) :
    LinkInv (trainingStage1 players st) := by
  rw [trainingStage1]
  exact linkInv_foldl _ _
    (fun st' ps h' =>
      linkInv_setFlag_true _ _ _
        ⟨4, mkAdvisorApp ps,
          List.mem_append_right _ (pushAdvisor_self_mem st' 4 _), rfl⟩
        (linkInv_pushAdvisor st' 4 _ h')) st h

theorem subApp_trainingStage2 (players : List Player) (st2 : SState)
    (twl : List WaitingPlayer) : SubApp st2 (trainingStage2 players st2 twl).1 := by
  rw [trainingStage2]
  exact subApp_foldl _ _
    (fun st' ps => subApp_trans (subApp_pushMinister st' 4 _) (subApp_setFlag _ _ _ _)) st2

theorem linkInv_trainingStage2 (players : List Player) (st2 : SState)
    (twl : List WaitingPlayer) (h : LinkInv st2) :
    LinkInv (trainingStage2 players st2 twl).1 := by
  rw [trainingStage2]
  exact linkInv_foldl _ _
    (fun st' ps h' =>
      linkInv_setFlag_true _ _ _
        ⟨4, mkOverflowApp ps,
          List.mem_append_left _ (pushMinister_self_mem st' 4 _), rfl⟩
        (linkInv_pushMinister st' 4 _ h')) st2 h

theorem fold_push_minister_mem (mk : PlayerSlot → Appointment) (day : Nat)
    (flag : FlagKind) :
    ∀ (l : List PlayerSlot) (st : SState) (ps : PlayerSlot), ps ∈ l →
      mk ps ∈ (l.foldl (fun acc q =>
        (acc.pushMinister day (mk q)).setFlag flag (playerId q.player) true) st).ministers
          day := by
  intro l
  induction l with
  | nil => intro st ps h; exact absurd h (List.not_mem_nil _)
  | cons q qs ih =>
    intro st ps h
    rw [List.foldl_cons]
    rcases List.mem_cons.mp h with heq | h2
    · have hmem : mk ps ∈
          ((st.pushMinister day (mk q)).setFlag flag (playerId q.player) true).ministers day := by
        rw [heq, setFlag_ministers]
        exact pushMinister_self_mem st day (mk q)
      exact ((subApp_foldl _ qs
        (fun st' x => subApp_trans (subApp_pushMinister st' day _) (subApp_setFlag _ _ _ _))
        _ day).1) _ hmem
    · exact ih _ ps h2

/-- Any member of a first-pass-plus-displacement input ends up either
assigned or still pending. -/
theorem disp_mem_split (unscheduled : List Player) (prop : Player → ℚ) (p : Player)
    (hp : p ∈ unscheduled) :
    (∃ ps ∈ (performDisplacement (assignFirstPass unscheduled generateTimeSlots []).2
        (assignFirstPass unscheduled generateTimeSlots []).1 prop).2, ps.player = p) ∨
    p ∈ (performDisplacement (assignFirstPass unscheduled generateTimeSlots []).2
        (assignFirstPass unscheduled generateTimeSlots []).1 prop).1 := by
  have hps : p ∈ sortOrd (fun a b =>
      decide (getTotalAvailableMinutes a ≤ getTotalAvailableMinutes b)) unscheduled :=
    (sortOrd_perm _ unscheduled).mem_iff.mpr hp
  obtain ⟨eA, eU, h1, h2, hperm⟩ := afpFold_spec generateTimeSlots
    (sortOrd (fun a b =>
      decide (getTotalAvailableMinutes a ≤ getTotalAvailableMinutes b)) unscheduled)
    ([], [])
  have hE1 : (assignFirstPass unscheduled generateTimeSlots []).1 = eA := by
    rw [assignFirstPass]
    simpa using h1
  have hE2 : (assignFirstPass unscheduled generateTimeSlots []).2 = eU := by
    rw [assignFirstPass]
    simpa using h2
  have hmem0 : p ∈ eA.map (fun x => x.player) ++ eU := hperm.mem_iff.mpr hps
  have hmem1 : p ∈ (assignFirstPass unscheduled generateTimeSlots []).2 ++
      ((assignFirstPass unscheduled generateTimeSlots []).1.map (fun x => x.player)) := by
    rw [hE1, hE2]
    rcases List.mem_append.mp hmem0 with h | h
    · exact List.mem_append_right _ h
    · exact List.mem_append_left _ h
  have hup := runDisp_union_perm prop
    (invMeasure prop (assignFirstPass unscheduled generateTimeSlots []).2
      (assignFirstPass unscheduled generateTimeSlots []).1 + 1)
    (assignFirstPass unscheduled generateTimeSlots []).2
    (assignFirstPass unscheduled generateTimeSlots []).1
  have hmem2 := hup.mem_iff.mpr hmem1
  rcases List.mem_append.mp hmem2 with h | h
  · exact Or.inr h
  · obtain ⟨ps, hpsm, hpse⟩ := List.mem_map.mp h
    exact Or.inl ⟨ps, hpsm, hpse⟩

/-- Per-pass coverage for a king-day minister pass: every listed player
ends the pass with an appointment recorded under their id (their own, or
one already guaranteed by a set flag) or on the outgoing waiting list. -/
theorem cover_assignInitialMinisters (day : Nat) (players : List Player)
    (prop : Player → ℚ) (flag : FlagKind) (st : SState) (twl : List WaitingPlayer)
    (p : Player) (hL : LinkInv st) (hp : p ∈ players) :
    (∃ d, ∃ app ∈ (assignInitialMinisters day players prop flag st twl).1.ministers d ++
        (assignInitialMinisters day players prop flag st twl).1.advisors d,
      appPid app = playerId p) ∨
    ∃ w ∈ (assignInitialMinisters day players prop flag st twl).2,
      waitingKey w = p.alliance ++ "/" ++ p.player := by
  by_cases hfl : st.getFlag flag (playerId p) = true
  · exact Or.inl (exists_app_mono
      (subApp_assignInitialMinisters day players prop flag st twl) (hL _ _ hfl))
  · have hfl' : st.getFlag flag (playerId p) = false := Bool.eq_false_iff.mpr hfl
    have hpu : p ∈ players.filter (fun q => !(st.getFlag flag (playerId q))) :=
      List.mem_filter.mpr ⟨hp, by simp [hfl']⟩
    rcases disp_mem_split _ prop p hpu with ⟨ps, hpsm, hpse⟩ | h
    · refine Or.inl ⟨day, mkMinisterApp prop ps, List.mem_append_left _ ?_,
        congrArg playerId hpse⟩
      exact fold_push_minister_mem (mkMinisterApp prop) day flag _ st ps hpsm
    · exact Or.inr ⟨toWaitingPlayer p,
        List.mem_append_right _ (List.mem_map_of_mem _ h), rfl⟩

/-- Per-pass coverage for the training-day stage 2 given the link invariant
at its entry state. -/
theorem cover_trainingStage2 (players : List Player) (st2 : SState)
    (twl : List WaitingPlayer) (p : Player) (hL2 : LinkInv st2) (hp : p ∈ players) :
    (∃ d, ∃ app ∈ (trainingStage2 players st2 twl).1.ministers d ++
        (trainingStage2 players st2 twl).1.advisors d,
      appPid app = playerId p) ∨
    ∃ w ∈ (trainingStage2 players st2 twl).2,
      waitingKey w = p.alliance ++ "/" ++ p.player := by
  by_cases h2 : st2.trainingAssignments (playerId p) = true
  · exact Or.inl (exists_app_mono (subApp_trainingStage2 players st2 twl)
      (hL2 (playerId p) .training h2))
  · by_cases h3 : st2.researchAssignments (playerId p) = true
    · exact Or.inl (exists_app_mono (subApp_trainingStage2 players st2 twl)
        (hL2 (playerId p) .research h3))
    · have h2' : st2.trainingAssignments (playerId p) = false := Bool.eq_false_iff.mpr h2
      have h3' : st2.researchAssignments (playerId p) = false := Bool.eq_false_iff.mpr h3
      have hpo : p ∈ (players.filter fun q => !(st2.trainingAssignments (playerId q))).filter
          (fun q => !(st2.researchAssignments (playerId q))) :=
        List.mem_filter.mpr ⟨List.mem_filter.mpr ⟨hp, by simp [h2']⟩, by simp [h3']⟩
      rcases disp_mem_split _ (fun q => q.soldierTraining) p hpo with ⟨ps, hpsm, hpse⟩ | h
      · refine Or.inl ⟨4, mkOverflowApp ps, List.mem_append_left _ ?_,
          congrArg playerId hpse⟩
        exact fold_push_minister_mem mkOverflowApp 4 .research _ st2 ps hpsm
      · exact Or.inr ⟨toWaitingPlayer p,
          List.mem_append_right _ (List.mem_map_of_mem _ h), rfl⟩

/-- Per-pass coverage for the whole training day. -/
theorem cover_scheduleTrainingDay (players : List Player) (m : ℚ) (st : SState)
    (twl : List WaitingPlayer) (p : Player) (hL : LinkInv st) (hp : p ∈ players) :
    (∃ d, ∃ app ∈ (scheduleTrainingDay players m st twl).1.ministers d ++
        (scheduleTrainingDay players m st twl).1.advisors d,
      appPid app = playerId p) ∨
    ∃ w ∈ (scheduleTrainingDay players m st twl).2,
      waitingKey w = p.alliance ++ "/" ++ p.player := by
  rw [scheduleTrainingDay]
  exact cover_trainingStage2 players _ twl p (linkInv_trainingStage1 players st hL) hp

end KS

end CoverageLemmas2

section CoverageLemmas3

namespace KS

theorem covered_of_parts {p : Player} {st : SState} {wl : List WaitingPlayer}
    (h : (∃ d, ∃ app ∈ st.ministers d ++ st.advisors d, appPid app = playerId p) ∨
      ∃ w ∈ wl, waitingKey w = p.alliance ++ "/" ++ p.player) :
    Covered p st wl := by
  rcases h with ⟨d, app, hmem, hid⟩ | hw
  · exact Or.inl ⟨d, app, hmem, Or.inl hid⟩
  · exact Or.inr hw

theorem covered_mono {p : Player} {st st' : SState} {wl wl' : List WaitingPlayer}
    (hsub : SubApp st st') (hw : ∀ w ∈ wl, w ∈ wl') (h : Covered p st wl) :
    Covered p st' wl' := by
  rcases h with happ | ⟨w, hwm, hK⟩
  · exact Or.inl (exists_app_mono hsub happ)
  · exact Or.inr ⟨w, hw w hwm, hK⟩

theorem covered_foldl_pair (p : Player) {α : Type}
    (f : SState × List WaitingPlayer → α → SState × List WaitingPlayer) (l : List α)
    (hf : ∀ acc x, Covered p acc.1 acc.2 → Covered p (f acc x).1 (f acc x).2) :
    ∀ acc, Covered p acc.1 acc.2 → Covered p (l.foldl f acc).1 (l.foldl f acc).2 := by
  induction l with
  | nil => exact fun _ h => h
  | cons x xs ih => exact fun acc h => ih _ (hf acc x h)

theorem subApp_scheduleTrainingDay (players : List Player) (m : ℚ) (st : SState)
    (twl : List WaitingPlayer) : SubApp st (scheduleTrainingDay players m st twl).1 := by
  rw [scheduleTrainingDay]
  exact subApp_trans (subApp_trainingStage1 players st)
    (subApp_trainingStage2 players _ twl)

theorem waiting_mono_assignInitialMinisters (day : Nat) (players : List Player)
    (prop : Player → ℚ) (flag : FlagKind) (st : SState) (twl : List WaitingPlayer) :
    ∀ w ∈ twl, w ∈ (assignInitialMinisters day players prop flag st twl).2 :=
  fun _ h => List.mem_append_left _ h

theorem waiting_mono_scheduleTrainingDay (players : List Player) (m : ℚ) (st : SState)
    (twl : List WaitingPlayer) :
    ∀ w ∈ twl, w ∈ (scheduleTrainingDay players m st twl).2 :=
  fun _ h => List.mem_append_left _ h

theorem dedup_key_mem_aux (K : String) :
    ∀ (l acc : List WaitingPlayer),
      (∃ w, (w ∈ acc ∨ w ∈ l) ∧ waitingKey w = K) →
      ∃ w ∈ l.foldl (fun acc w =>
        if acc.any (fun v => decide (waitingKey v = waitingKey w)) then acc
        else acc ++ [w]) acc, waitingKey w = K := by
  intro l
  induction l with
  | nil =>
    intro acc ⟨w, hm, hK⟩
    rcases hm with h | h
    · exact ⟨w, h, hK⟩
    · exact absurd h (List.not_mem_nil _)
  | cons x xs ih =>
    intro acc ⟨w, hm, hK⟩
    rw [List.foldl_cons]
    by_cases hany : (acc.any fun v => decide (waitingKey v = waitingKey x)) = true
    · rw [if_pos hany]
      rcases hm with h | h
      · exact ih acc ⟨w, Or.inl h, hK⟩
      · rcases List.mem_cons.mp h with heq | h2
        · obtain ⟨u, hu, hud⟩ := List.any_eq_true.mp hany
          refine ih acc ⟨u, Or.inl hu, ?_⟩
          rw [of_decide_eq_true hud, ← heq, hK]
        · exact ih acc ⟨w, Or.inr h2, hK⟩
    · rw [if_neg hany]
      rcases hm with h | h
      · exact ih _ ⟨w, Or.inl (List.mem_append_left _ h), hK⟩
      · rcases List.mem_cons.mp h with heq | h2
        · refine ih _ ⟨w, Or.inl (List.mem_append_right _ ?_), hK⟩
          rw [heq]
          exact List.mem_singleton.mpr rfl
        · exact ih _ ⟨w, Or.inr h2, hK⟩

theorem dedup_key_mem {K : String} {l : List WaitingPlayer}
    (h : ∃ w ∈ l, waitingKey w = K) : ∃ w ∈ dedupByKey l, waitingKey w = K := by
  rw [dedupByKey]
  obtain ⟨w, hm, hK⟩ := h
  exact dedup_key_mem_aux K l [] ⟨w, Or.inr hm, hK⟩

theorem covered_dedup {p : Player} {st : SState} {wl : List WaitingPlayer}
    (h : Covered p st wl) : Covered p st (dedupByKey wl) := by
  rcases h with happ | hw
  · exact Or.inl happ
  · exact Or.inr (dedup_key_mem hw)

theorem sortWaitingBySum_perm (filtered : List Player) (l : List WaitingPlayer) :
    List.Perm (sortWaitingBySum filtered l) l := by
  rw [sortWaitingBySum]
  exact sortOrd_perm _ l

theorem covered_place {p : Player} {st : SState} {wl : List WaitingPlayer}
    {wp : WaitingPlayer} {day : Nat} {slot : TimeRange} {k : FlagKind} {pid : String}
    (h : Covered p st wl) :
    Covered p ((st.pushMinister day (mkSpillApp wp slot)).setFlag k pid true)
      (wl.erase wp) := by
  rcases h with happ | ⟨w, hw, hK⟩
  · exact Or.inl (exists_app_mono
      (subApp_trans (subApp_pushMinister _ _ _) (subApp_setFlag _ _ _ _)) happ)
  · by_cases hwwp : w = wp
    · refine Or.inl ⟨day, mkSpillApp wp slot, List.mem_append_left _ ?_, Or.inr ?_⟩
      · rw [setFlag_ministers]
        exact pushMinister_self_mem _ _ _
      · rw [← hK, hwwp]
        rfl
    · exact Or.inr ⟨w, (List.mem_erase_of_ne hwwp).mpr hw, hK⟩

theorem covered_place3 {p : Player} {st : SState} {wl : List WaitingPlayer}
    {wp : WaitingPlayer} {slot : TimeRange} {pid : String}
    (h : Covered p st wl) :
    Covered p ((((st.pushMinister 3 (mkSpillApp wp slot)).setFlag .construction pid
        true).setFlag .research pid true).setFlag .training pid true)
      (wl.erase wp) := by
  rcases h with happ | ⟨w, hw, hK⟩
  · exact Or.inl (exists_app_mono
      (subApp_trans (subApp_pushMinister _ _ _)
        (subApp_trans (subApp_setFlag _ _ _ _)
          (subApp_trans (subApp_setFlag _ _ _ _) (subApp_setFlag _ _ _ _)))) happ)
  · by_cases hwwp : w = wp
    · refine Or.inl ⟨3, mkSpillApp wp slot, List.mem_append_left _ ?_, Or.inr ?_⟩
      · rw [setFlag_ministers, setFlag_ministers, setFlag_ministers]
        exact pushMinister_self_mem _ _ _
      · rw [← hK, hwwp]
        rfl
    · exact Or.inr ⟨w, (List.mem_erase_of_ne hwwp).mpr hw, hK⟩

theorem covered_spilloverStep (filtered : List Player) (cd rd day : Nat)
    (acc : SState × List WaitingPlayer) (wp : WaitingPlayer) (p : Player)
    (h : Covered p acc.1 acc.2) :
    Covered p (spilloverStep filtered cd rd day acc wp).1
      (spilloverStep filtered cd rd day acc wp).2 := by
  rw [spilloverStep]
  dsimp only
  repeat' split
  all_goals
    first
      | exact h
      | (dsimp only
         exact covered_place h)

theorem covered_spilloverDay (filtered : List Player) (cd rd : Nat) (od : Option Nat)
    (acc : SState × List WaitingPlayer) (day : Nat) (p : Player)
    (h : Covered p acc.1 acc.2) :
    Covered p (spilloverDay filtered cd rd od acc day).1
      (spilloverDay filtered cd rd od acc day).2 := by
  rw [spilloverDay]
  exact covered_foldl_pair p _ _
    (fun a w h' => covered_spilloverStep filtered cd rd day a w p h') acc h

theorem covered_day3Step (filtered : List Player) (m : ℚ)
    (acc : SState × List WaitingPlayer) (wp : WaitingPlayer) (p : Player)
    (h : Covered p acc.1 acc.2) :
    Covered p (day3Step filtered m acc wp).1 (day3Step filtered m acc wp).2 := by
  rw [day3Step]
  dsimp only
  repeat' split
  all_goals
    first
      | exact h
      | (dsimp only
         exact covered_place3 h)

end KS

end CoverageLemmas3

/-- Claim C1 (amended).  Every processed player with nonnegative
construction and research scores who meets a per-role threshold
(construction, research, or soldier training at least `minHours`) ends the
run either holding an appointment recorded under their identity (in the
`player-alliance` or `alliance/player` rendering) or appearing on the
final waiting list by identity key.  Candidates eligible only through the
combined construction+research sum are covered by no pass and can vanish
(see the counterexample), and a candidate can be in more than one of the
claim's states, so "exactly one of three states" is weakened to this
at-least-one coverage. -/
theorem c1_eligible_coverage (players : List KS.Player) (minHours : ℚ) (cd rd : Nat)
    (p : KS.Player)
    (hp : p ∈ (KS.calculateScheduleData players minHours cd rd).processedPlayers)
    (hC : 0 ≤ p.construction) (hR : 0 ≤ p.research)
    (helig : minHours ≤ p.construction ∨ minHours ≤ p.research ∨
      minHours ≤ p.soldierTraining) :
    KS.Covered p (KS.calculateScheduleData players minHours cd rd).state
      (KS.calculateScheduleData players minHours cd rd).waitingList := by
  have hp' : p ∈ players.map KS.allocateGeneralSpeedups := hp
  have hor : minHours ≤ p.construction + p.research ∨ minHours ≤ p.soldierTraining := by
    rcases helig with h | h | h
    · left
      linarith
    · left
      linarith
    · right
      exact h
  set FL := (players.map KS.allocateGeneralSpeedups).filter
      (fun q => decide (minHours ≤ q.construction + q.research) ||
        decide (minHours ≤ q.soldierTraining)) with hFL
  have hpf : p ∈ FL := List.mem_filter.mpr ⟨hp', by rcases hor with h | h <;> simp [h]⟩
  set st0 := KS.initFlags FL minHours KS.initAssignments with hst0
  set CL := FL.filter (fun q => decide (minHours ≤ q.construction)) with hCL
  set r1 := KS.assignInitialMinisters cd CL (fun q => q.construction) .construction st0 []
    with hr1
  set RL := FL.filter (fun q => decide (minHours ≤ q.research)) with hRL
  set r2 := KS.assignInitialMinisters rd RL (fun q => q.research) .research r1.1 r1.2
    with hr2
  set AL := FL.filter (fun q => decide (minHours ≤ q.soldierTraining)) with hAL
  set r3 := KS.scheduleTrainingDay AL minHours r2.1 r2.2 with hr3
  set cons := KS.dedupByKey r3.2 with hcons
  set od := [1, 2, 5].find? (fun d => decide (d ≠ cd) && decide (d ≠ rd)) with hod
  set pdays := (match od with | some d => [cd, rd, d] | none => [cd, rd]) with hpd
  set r4 := pdays.foldl (KS.spilloverDay FL cd rd od) (r3.1, cons) with hr4
  set srt := KS.sortWaitingBySum FL r4.2 with hsrt
  set r5 := srt.foldl (KS.day3Step FL minHours) (r4.1, srt) with hr5
  have hL0 : KS.LinkInv st0 := KS.linkInv_initFlags _ _ _ KS.linkInv_init
  have hL1 : KS.LinkInv r1.1 := KS.linkInv_assignInitialMinisters _ _ _ _ _ _ hL0
  have hL2 : KS.LinkInv r2.1 := KS.linkInv_assignInitialMinisters _ _ _ _ _ _ hL1
  have hcov3 : KS.Covered p r3.1 r3.2 := by
    rcases helig with hc | hr | ht
    · have hpcl : p ∈ CL := List.mem_filter.mpr ⟨hpf, by simp [hc]⟩
      have h1 := KS.covered_of_parts (KS.cover_assignInitialMinisters cd CL
        (fun q => q.construction) .construction st0 [] p hL0 hpcl)
      have h2 : KS.Covered p r2.1 r2.2 := KS.covered_mono
        (KS.subApp_assignInitialMinisters rd RL (fun q => q.research) .research r1.1 r1.2)
        (KS.waiting_mono_assignInitialMinisters rd RL (fun q => q.research) .research
          r1.1 r1.2) h1
      exact KS.covered_mono (KS.subApp_scheduleTrainingDay AL minHours r2.1 r2.2)
        (KS.waiting_mono_scheduleTrainingDay AL minHours r2.1 r2.2) h2
    · have hprl : p ∈ RL := List.mem_filter.mpr ⟨hpf, by simp [hr]⟩
      have h2 := KS.covered_of_parts (KS.cover_assignInitialMinisters rd RL
        (fun q => q.research) .research r1.1 r1.2 p hL1 hprl)
      exact KS.covered_mono (KS.subApp_scheduleTrainingDay AL minHours r2.1 r2.2)
        (KS.waiting_mono_scheduleTrainingDay AL minHours r2.1 r2.2) h2
    · have hpal : p ∈ AL := List.mem_filter.mpr ⟨hpf, by simp [ht]⟩
      exact KS.covered_of_parts (KS.cover_scheduleTrainingDay AL minHours r2.1 r2.2 p
        hL2 hpal)
  have hcons' : KS.Covered p r3.1 cons := KS.covered_dedup hcov3
  have hcov4 : KS.Covered p r4.1 r4.2 :=
    KS.covered_foldl_pair p (KS.spilloverDay FL cd rd od) pdays
      (fun a d h => KS.covered_spilloverDay FL cd rd od a d p h) (r3.1, cons) hcons'
  have hsorted : KS.Covered p r4.1 srt := by
    rcases hcov4 with happ | ⟨w, hw, hK⟩
    · exact Or.inl happ
    · exact Or.inr ⟨w, (KS.sortWaitingBySum_perm FL r4.2).mem_iff.mpr hw, hK⟩
  have hcov5 : KS.Covered p r5.1 r5.2 :=
    KS.covered_foldl_pair p (KS.day3Step FL minHours) srt
      (fun a w h => KS.covered_day3Step FL minHours a w p h) (r4.1, srt) hsorted
  exact hcov5

/-- Witness for the amended claim C1 at a concrete eligible player. -/
theorem c1_witness :
    ((⟨"A", "solo", 0, "", 0, 25, 3, 0, []⟩ : KS.Player) ∈
      (KS.calculateScheduleData [⟨"A", "solo", 0, "", 0, 25, 3, 0, []⟩] 20 1 2).processedPlayers) ∧
    ((0:ℚ) ≤ 25 ∧ (0:ℚ) ≤ 3) ∧
    ((20:ℚ) ≤ 25 ∨ (20:ℚ) ≤ 3 ∨ (20:ℚ) ≤ 0) ∧
    KS.Covered ⟨"A", "solo", 0, "", 0, 25, 3, 0, []⟩
      (KS.calculateScheduleData [⟨"A", "solo", 0, "", 0, 25, 3, 0, []⟩] 20 1 2).state
      (KS.calculateScheduleData [⟨"A", "solo", 0, "", 0, 25, 3, 0, []⟩] 20 1 2).waitingList :=
  ⟨by decide, ⟨by decide, by decide⟩, by decide,
    c1_eligible_coverage [⟨"A", "solo", 0, "", 0, 25, 3, 0, []⟩] 20 1 2
      ⟨"A", "solo", 0, "", 0, 25, 3, 0, []⟩ (by decide) (by decide) (by decide)
      (by decide)⟩

section CsvLemmas

namespace Csv

theorem getLast?_option_toList {α : Type} (o : Option α) : o.toList.getLast? = o := by
  cases o <;> rfl

theorem getLast?_all_eq {α : Type} {a : α} :
    ∀ (l : List α), l ≠ [] → (∀ x ∈ l, x = a) → l.getLast? = some a
  | [], hne, _ => absurd rfl hne
  | [x], _, hall => by rw [hall x (by simp)]; rfl
  | x :: y :: ys, _, hall => by
    rw [List.getLast?_cons_cons]
    exact getLast?_all_eq (y :: ys) (by simp)
      (fun z hz => hall z (List.mem_cons_of_mem _ hz))

theorem mapSet_fst (k : String) (v : CsvPlayer) (e : String × CsvPlayer) :
    ((if e.1 = k then (k, v) else e) : String × CsvPlayer).1 = e.1 := by
  by_cases h : e.1 = k
  · rw [if_pos h]
    exact h.symm
  · rw [if_neg h]

theorem mapLookup_mapSet_self (m : List (String × CsvPlayer)) (k : String) (v : CsvPlayer) :
    mapLookup (mapSet m k v) k = some v := by
  rw [mapSet]
  by_cases hany : (m.any fun e => decide (e.1 = k)) = true
  · rw [if_pos hany, mapLookup]
    have hfil : ((m.map fun e => if e.1 = k then (k, v) else e).filter
        fun e => decide (e.1 = k)) =
        (m.filter fun e => decide (e.1 = k)).map fun e => if e.1 = k then (k, v) else e := by
      rw [List.filter_map]
      congr 1
      exact List.filter_congr fun e _ => by
        simp only [Function.comp]
        rw [mapSet_fst]
    have hne : (m.filter fun e => decide (e.1 = k)) ≠ [] := by
      obtain ⟨e, he, hd⟩ := List.any_eq_true.mp hany
      intro hnil
      have hmem : e ∈ m.filter (fun e => decide (e.1 = k)) := List.mem_filter.mpr ⟨he, hd⟩
      rw [hnil] at hmem
      exact absurd hmem (List.not_mem_nil _)
    have hall : ∀ x ∈ ((m.filter fun e => decide (e.1 = k)).map
        fun e => if e.1 = k then (k, v) else e), x = (k, v) := by
      intro x hx
      obtain ⟨e, he, hfe⟩ := List.mem_map.mp hx
      have hek : e.1 = k := of_decide_eq_true (List.mem_filter.mp he).2
      rw [← hfe, if_pos hek]
    have hlast := getLast?_all_eq _ (fun h => hne (by simpa using h)) hall
    rw [hfil, hlast]
    rfl
  · rw [if_neg hany, mapLookup, List.filter_append]
    have hsing : ([((k, v) : String × CsvPlayer)].filter fun e => decide (e.1 = k)) =
        [(k, v)] := by simp
    rw [hsing, List.getLast?_append_cons]
    rfl

theorem mapLookup_mapSet_ne (m : List (String × CsvPlayer)) (k K : String)
    (v : CsvPlayer) (hne : K ≠ k) : mapLookup (mapSet m k v) K = mapLookup m K := by
  rw [mapSet]
  by_cases hany : (m.any fun e => decide (e.1 = k)) = true
  · rw [if_pos hany, mapLookup, mapLookup]
    have hfil : ((m.map fun e => if e.1 = k then (k, v) else e).filter
        fun e => decide (e.1 = K)) = m.filter fun e => decide (e.1 = K) := by
      rw [List.filter_map]
      have hpred : ∀ e : String × CsvPlayer,
          (fun e => decide (e.1 = K)) ((fun e => if e.1 = k then (k, v) else e) e) =
            decide (e.1 = K) := by
        intro e
        simp only
        rw [mapSet_fst]
      have hpe : ((fun e => decide (e.1 = K)) ∘ fun e : String × CsvPlayer =>
          if e.1 = k then (k, v) else e) = fun e : String × CsvPlayer =>
            decide (e.1 = K) := by
        funext e
        exact hpred e
      rw [hpe]
      have hid : ∀ e ∈ m.filter (fun e : String × CsvPlayer => decide (e.1 = K)),
          (if e.1 = k then (k, v) else e) = e := by
        intro e he
        have heK : e.1 = K := of_decide_eq_true (List.mem_filter.mp he).2
        rw [if_neg (by rw [heK]; exact hne)]
      rw [List.map_congr_left hid]
      simp
    rw [hfil]
  · rw [if_neg hany, mapLookup, mapLookup, List.filter_append]
    have hsing : ([((k, v) : String × CsvPlayer)].filter fun e => decide (e.1 = K)) =
        [] := by simp [hne.symm]
    rw [hsing, List.append_nil]

theorem mapSet_keys_nodup (m : List (String × CsvPlayer)) (k : String) (v : CsvPlayer)
    (hnd : (m.map fun e => e.1).Nodup) : ((mapSet m k v).map fun e => e.1).Nodup := by
  rw [mapSet]
  by_cases hany : (m.any fun e => decide (e.1 = k)) = true
  · rw [if_pos hany, List.map_map]
    have hcomp : ((fun e : String × CsvPlayer => e.1) ∘ fun e =>
        if e.1 = k then (k, v) else e) = fun e : String × CsvPlayer => e.1 := by
      funext e
      simp only [Function.comp]
      exact mapSet_fst k v e
    rw [hcomp]
    exact hnd
  · rw [if_neg hany, List.map_append]
    have hk : k ∉ m.map fun e => e.1 := by
      intro hmem
      obtain ⟨e, he, hek⟩ := List.mem_map.mp hmem
      exact hany (List.any_eq_true.mpr ⟨e, he, decide_eq_true hek⟩)
    simp only [List.map_cons, List.map_nil]
    rw [List.nodup_append]
    refine ⟨hnd, List.nodup_singleton _, ?_⟩
    intro x hx hxk
    rw [List.mem_singleton] at hxk
    refine hk ?_
    rw [← hxk]
    exact hx

theorem mapSet_consistent (m : List (String × CsvPlayer)) (k : String) (v : CsvPlayer)
    (hc : ∀ e ∈ m, e.1 = csvKey e.2) (hkv : k = csvKey v) :
    ∀ e ∈ mapSet m k v, e.1 = csvKey e.2 := by
  intro e he
  rw [mapSet] at he
  by_cases hany : (m.any fun e => decide (e.1 = k)) = true
  · rw [if_pos hany] at he
    obtain ⟨e0, he0, hfe⟩ := List.mem_map.mp he
    by_cases h0 : e0.1 = k
    · rw [if_pos h0] at hfe
      rw [← hfe]
      exact hkv
    · rw [if_neg h0] at hfe
      rw [← hfe]
      exact hc e0 he0
  · rw [if_neg hany] at he
    rcases List.mem_append.mp he with h | h
    · exact hc e h
    · rw [List.mem_singleton.mp h]
      exact hkv

theorem values_filter_key :
    ∀ (m : List (String × CsvPlayer)) (K : String),
      (m.map fun e => e.1).Nodup → (∀ e ∈ m, e.1 = csvKey e.2) →
      ((m.map fun e => e.2).filter fun p => decide (csvKey p = K)) =
        (mapLookup m K).toList := by
  intro m
  induction m with
  | nil => intro K _ _; rfl
  | cons e m' ih =>
    intro K hnd hc
    have hker : e.1 = csvKey e.2 := hc e (by simp)
    have hndt : (m'.map fun x => x.1).Nodup := (List.nodup_cons.mp (by simpa using hnd)).2
    have hct : ∀ x ∈ m', x.1 = csvKey x.2 := fun x hx => hc x (List.mem_cons_of_mem _ hx)
    by_cases hek : csvKey e.2 = K
    · have htail : ∀ x ∈ m', x.1 ≠ K := by
        intro x hx hK
        have hmem : e.1 ∈ m'.map fun y => y.1 := by
          rw [hker, hek, ← hK]
          exact List.mem_map_of_mem _ hx
        exact (List.nodup_cons.mp (by simpa using hnd)).1 hmem
      have hvt : ((m'.map fun x => x.2).filter fun p => decide (csvKey p = K)) = [] := by
        rw [List.filter_eq_nil_iff]
        intro p hp
        obtain ⟨x, hx, hfx⟩ := List.mem_map.mp hp
        rw [← hfx]
        simp only [decide_eq_true_eq]
        rw [← hct x hx]
        exact htail x hx
      have hkt : (m'.filter fun x => decide (x.1 = K)) = [] := by
        rw [List.filter_eq_nil_iff]
        intro x hx
        simp only [decide_eq_true_eq]
        exact htail x hx
      rw [List.map_cons, List.filter_cons, mapLookup, List.filter_cons]
      rw [if_pos (by simpa using hek), if_pos (by simp [hker, hek])]
      rw [hvt, hkt]
      rfl
    · rw [List.map_cons, List.filter_cons, mapLookup, List.filter_cons]
      rw [if_neg (by simpa using hek), if_neg (by simp [hker, hek])]
      exact ih K hndt hct

end Csv

end CsvLemmas

section CsvLemmas2

namespace Csv

theorem csvFold_none (headers : List String) (delimiter : Char) :
    ∀ ls : List (Nat × List Char), ls.foldl (csvStep headers delimiter) none = none := by
  intro ls
  induction ls with
  | nil => rfl
  | cons x xs ih =>
    rw [List.foldl_cons]
    exact ih

theorem csvFold_spec (headers : List String) (delimiter : Char) :
    ∀ (ls : List (Nat × List Char)) (m0 : List (String × CsvPlayer)) (e0 : List String)
      (m : List (String × CsvPlayer)) (errs : List String),
      ls.foldl (csvStep headers delimiter) (some (m0, e0)) = some (m, errs) →
      (errs = e0 ++ (ls.flatMap fun il =>
        match processLine headers delimiter (il.1 + 2) il.2 with
        | some (Sum.inl es) => es
        | _ => [])) ∧
      (∀ K, mapLookup m K =
        ((mapLookup m0 K).toList ++ (ls.filterMap fun il =>
          match processLine headers delimiter (il.1 + 2) il.2 with
          | some (Sum.inr p) => if csvKey p = K then some p else none
          | _ => none)).getLast?) ∧
      ((m0.map fun e => e.1).Nodup → (m.map fun e => e.1).Nodup) ∧
      ((∀ e ∈ m0, e.1 = csvKey e.2) → ∀ e ∈ m, e.1 = csvKey e.2) := by
  intro ls
  induction ls with
  | nil =>
    intro m0 e0 m errs h
    rw [List.foldl_nil] at h
    obtain ⟨h1, h2⟩ := Prod.mk.injEq m0 e0 m errs |>.mp (Option.some.inj h)
    subst h1
    subst h2
    refine ⟨by simp, fun K => ?_, id, id⟩
    rw [List.filterMap_nil, List.append_nil, getLast?_option_toList]
  | cons il ls2 ih =>
    intro m0 e0 m errs h
    rw [List.foldl_cons] at h
    rcases hpl : processLine headers delimiter (il.1 + 2) il.2 with _ | r
    · have hstep : csvStep headers delimiter (some (m0, e0)) il = none := by
        simp [csvStep, hpl]
      rw [hstep, csvFold_none] at h
      exact absurd h (by simp)
    · rcases r with es | p
      · have hstep : csvStep headers delimiter (some (m0, e0)) il =
            some (m0, e0 ++ es) := by
          simp [csvStep, hpl]
        rw [hstep] at h
        obtain ⟨hE, hL, hN, hC⟩ := ih m0 (e0 ++ es) m errs h
        refine ⟨?_, fun K => ?_, hN, hC⟩
        · rw [hE]
          simp only [List.flatMap_cons, hpl]
          rw [List.append_assoc]
        · rw [hL K]
          simp only [List.filterMap_cons, hpl]
      · have hstep : csvStep headers delimiter (some (m0, e0)) il =
            some (mapSet m0 (csvKey p) p, e0) := by
          simp [csvStep, hpl]
        rw [hstep] at h
        obtain ⟨hE, hL, hN, hC⟩ := ih _ e0 m errs h
        refine ⟨?_, fun K => ?_, ?_, ?_⟩
        · rw [hE]
          simp only [List.flatMap_cons, hpl]
          rw [List.nil_append]
        · simp only [List.filterMap_cons, hpl]
          by_cases hK : csvKey p = K
          · subst hK
            rw [if_pos rfl, List.getLast?_append_cons, hL (csvKey p),
              mapLookup_mapSet_self]
            rfl
          · rw [if_neg hK, hL K, mapLookup_mapSet_ne m0 (csvKey p) K p
              (fun hKk => hK hKk.symm)]
        · intro hnd0
          exact hN (mapSet_keys_nodup _ _ _ hnd0)
        · intro hc0
          exact hC (mapSet_consistent _ _ _ hc0 rfl)

end Csv

end CsvLemmas2

/-- Claim C9.  When the roster CSV contains multiple accepted data rows
carrying the same `(alliance, player)` identity key, `parseCsvToObjects`
returns exactly one record for that key, the one built from the last such
row (the keyed records with key `K` in the result are exactly the last
element of the line-ordered list of accepted records with key `K`), and
the returned errors are exactly the per-line error messages, computed
independently per line, so the duplication contributes nothing to the
errors list. -/
theorem c9_duplicate_rows_last_wins (csvText : String) (res : Csv.CsvResult)
    (h : Csv.parseCsvToObjects csvText = some res) :
    (∀ K : String,
      res.players.filter (fun p => decide (Csv.csvKey p = K)) =
        (Csv.csvRecordsWithKey csvText K).getLast?.toList) ∧
    res.errors = Csv.csvLineErrors csvText := by
  rw [Csv.parseCsvToObjects] at h
  rcases hls : Csv.csvLines csvText with _ | ⟨firstLine, rest⟩
  · rw [hls] at h
    have hres := Option.some.inj h
    constructor
    · intro K
      rw [← hres, Csv.csvRecordsWithKey, hls]
      rfl
    · rw [← hres, Csv.csvLineErrors, hls]
  · rw [hls] at h
    dsimp only at h
    rcases hfold : rest.enum.foldl
        (Csv.csvStep (Csv.parseCsvLine firstLine (Csv.csvDelimiter firstLine))
          (Csv.csvDelimiter firstLine)) (some ([], [])) with _ | acc
    · rw [hfold] at h
      exact absurd h (by simp)
    · rw [hfold] at h
      have hres := Option.some.inj h
      obtain ⟨hE, hL, hN, hC⟩ := Csv.csvFold_spec
        (Csv.parseCsvLine firstLine (Csv.csvDelimiter firstLine))
        (Csv.csvDelimiter firstLine) rest.enum [] [] acc.1 acc.2
        (by rw [hfold])
      constructor
      · intro K
        rw [← hres]
        dsimp only
        have hval := Csv.values_filter_key acc.1 K (hN (by simp))
          (hC (by intro e he; exact absurd he (List.not_mem_nil _)))
        rw [hval, hL K, Csv.csvRecordsWithKey, hls]
        rfl
      · rw [← hres]
        dsimp only
        rw [hE, Csv.csvLineErrors, hls]
        rfl

/-- Witness for claim C9 on a concrete CSV with a duplicated identity. -/
theorem c9_witness :
    Csv.parseCsvToObjects "Alliance,Player,General Speedups,General Used For,Soldier Training,Construction,Research,Truegold Pieces,All Times\nA,dup,0,,1,2,3,4,9-17\nB,solo,0,,1,1,1,1,9-17\nA,dup,0,,5,6,7,8,10-12" =
      some ((Csv.parseCsvToObjects "Alliance,Player,General Speedups,General Used For,Soldier Training,Construction,Research,Truegold Pieces,All Times\nA,dup,0,,1,2,3,4,9-17\nB,solo,0,,1,1,1,1,9-17\nA,dup,0,,5,6,7,8,10-12").getD ⟨[], []⟩) ∧
    ((∀ K : String,
      ((Csv.parseCsvToObjects "Alliance,Player,General Speedups,General Used For,Soldier Training,Construction,Research,Truegold Pieces,All Times\nA,dup,0,,1,2,3,4,9-17\nB,solo,0,,1,1,1,1,9-17\nA,dup,0,,5,6,7,8,10-12").getD ⟨[], []⟩).players.filter
          (fun p => decide (Csv.csvKey p = K)) =
        (Csv.csvRecordsWithKey "Alliance,Player,General Speedups,General Used For,Soldier Training,Construction,Research,Truegold Pieces,All Times\nA,dup,0,,1,2,3,4,9-17\nB,solo,0,,1,1,1,1,9-17\nA,dup,0,,5,6,7,8,10-12" K).getLast?.toList) ∧
      ((Csv.parseCsvToObjects "Alliance,Player,General Speedups,General Used For,Soldier Training,Construction,Research,Truegold Pieces,All Times\nA,dup,0,,1,2,3,4,9-17\nB,solo,0,,1,1,1,1,9-17\nA,dup,0,,5,6,7,8,10-12").getD ⟨[], []⟩).errors =
        Csv.csvLineErrors "Alliance,Player,General Speedups,General Used For,Soldier Training,Construction,Research,Truegold Pieces,All Times\nA,dup,0,,1,2,3,4,9-17\nB,solo,0,,1,1,1,1,9-17\nA,dup,0,,5,6,7,8,10-12") :=
  ⟨by decide,
    c9_duplicate_rows_last_wins
      "Alliance,Player,General Speedups,General Used For,Soldier Training,Construction,Research,Truegold Pieces,All Times\nA,dup,0,,1,2,3,4,9-17\nB,solo,0,,1,1,1,1,9-17\nA,dup,0,,5,6,7,8,10-12"
      ((Csv.parseCsvToObjects "Alliance,Player,General Speedups,General Used For,Soldier Training,Construction,Research,Truegold Pieces,All Times\nA,dup,0,,1,2,3,4,9-17\nB,solo,0,,1,1,1,1,9-17\nA,dup,0,,5,6,7,8,10-12").getD ⟨[], []⟩)
      (by decide)⟩

/-- Claim C8.  The overnight split of the availability parser:
`parseTimeRanges "23:00-01:00"` yields exactly the two intervals
23:00-23:59 and 00:00-01:00 in that order, `parseTimeRanges "22:00-00:00"`
yields only 22:00-23:59, and in general `addRangeIfValid` drops a range
whose start equals its end, keeps a within-day range unchanged, and splits
a range whose end is at or before its start into [start, 23:59] plus
[00:00, end] except that no second interval is emitted when the end is
exactly 00:00. -/
theorem c8_parseTimeRanges_overnight_split :
    Parse.parseTimeRanges "23:00-01:00" =
      [⟨"23:00", "23:59"⟩, ⟨"00:00", "01:00"⟩] ∧
    Parse.parseTimeRanges "22:00-00:00" = [⟨"22:00", "23:59"⟩] ∧
    ∀ (ranges : List KS.TimeRange) (s e : String),
      Parse.addRangeIfValid ranges s e =
        ranges ++
          (if KS.timeToMinutes s = KS.timeToMinutes e then []
           else if KS.timeToMinutes s < KS.timeToMinutes e then
             [(⟨s, e⟩ : KS.TimeRange)]
           else (⟨s, "23:59"⟩ : KS.TimeRange) ::
             (if e ≠ "00:00" then [(⟨"00:00", e⟩ : KS.TimeRange)] else [])) := by
  refine ⟨by decide, by decide, ?_⟩
  intro ranges s e
  simp only [Parse.addRangeIfValid]
  split_ifs <;> simp

/-- Witness for C10 at a concrete two-player roster. -/
theorem c10_witness :
    ([scrP "a" 1, scrP "b" 2].Nodup) ∧
    (((KS.assignFirstPass [scrP "a" 1, scrP "b" 2] KS.generateTimeSlots []).1.map
        (·.slot.start)).Nodup ∧
     ((KS.assignFirstPass [scrP "a" 1, scrP "b" 2] KS.generateTimeSlots []).1.map
        (·.player)).Nodup ∧
     ∀ q ∈ (KS.assignFirstPass [scrP "a" 1, scrP "b" 2] KS.generateTimeSlots []).1.map
        (·.player),
       q ∉ (KS.assignFirstPass [scrP "a" 1, scrP "b" 2] KS.generateTimeSlots []).2) :=
  ⟨by decide,
    (c10_one_slot_per_player [scrP "a" 1, scrP "b" 2] KS.generateTimeSlots
      (fun p => p.construction) (by decide)).1⟩




section SlotLemmas

open KS

/-- `min?` of a mapped non-empty list, in the shape used by
`isSlotAvailable`. -/
lemma min?_map_cons (f : TimeRange → Nat) (r0 : TimeRange) (rs : List TimeRange) :
    ((r0 :: rs).map f).min? = some (rs.foldl (fun a r => min a (f r)) (f r0)) := by
  simp [List.min?, List.foldl_map]

/-- `max?` of a mapped non-empty list, in the shape used by
`isSlotAvailable`. -/
lemma max?_map_cons (f : TimeRange → Nat) (r0 : TimeRange) (rs : List TimeRange) :
    ((r0 :: rs).map f).max? = some (rs.foldl (fun a r => max a (f r)) (f r0)) := by
  simp [List.max?, List.foldl_map]

/-- The overlap fold in `isSlotAvailable` is the sum of per-range overlaps. -/
lemma overlap_foldl_eq_sum (g : TimeRange → Nat) (l : List TimeRange) :
    l.foldl (fun acc r => acc + g r) 0 = (l.map g).sum := by
  rw [← List.foldl_map, List.sum_eq_foldl]

end SlotLemmas

/-- Claim C2.  Evaluation of `generateTimeSlots`: there are exactly 48 slots
and their start times are 00:00, 00:30, …, 23:30 in order, but the claimed
"end equals start plus 10 minutes (mod 24h)" property is false: the slot at
index 1 starts at 00:30 and ends at 01:40 (seventy minutes later), because
the hour carry is computed from `minute + 30` while the minute offset is
`minute + 10`. -/
theorem c2_generateTimeSlots_eval :
    KS.generateTimeSlots.length = 48 ∧
    KS.generateTimeSlots.map KS.TimeRange.start =
      (List.range 48).map (fun i => KS.pad2 (30 * i / 60) ++ ":" ++ KS.pad2 (30 * i % 60)) ∧
    KS.generateTimeSlots[1]? = some { start := "00:30", stop := "01:40" } ∧
    (KS.generateTimeSlots.all fun sl =>
      KS.timeToMinutes sl.stop = (KS.timeToMinutes sl.start + 10) % 1440) = false := by
  decide

/-- Claim C5.  `isSlotAvailable` returns true exactly as the specification
describes: unconditionally for a player with no availability intervals, and
otherwise for slots that pass the overall-window check (slot start not
before the minimum interval start, midnight-adjusted slot end not beyond
the midnight-adjusted maximum interval end) and are either wrapping slots
or have a total per-interval overlap (double-counting overlaps) of at least
10 minutes. -/
theorem c5_isSlotAvailable_spec (p : KS.Player) (sS sE : String) :
    KS.isSlotAvailable p sS sE = true ↔
      (p.availableTimeRanges = [] ∨
        ∃ oS oE,
          (p.availableTimeRanges.map (fun r => KS.timeToMinutes r.start)).min? = some oS ∧
          (p.availableTimeRanges.map (fun r => KS.timeToMinutes r.stop)).max? = some oE ∧
          ¬ KS.timeToMinutes sS < oS ∧
          ¬ KS.adjustClock oS oE <
              KS.adjustClock (KS.timeToMinutes sS) (KS.timeToMinutes sE) ∧
          (KS.timeToMinutes sE < KS.timeToMinutes sS ∨
            10 ≤ (p.availableTimeRanges.map (fun r =>
              min (KS.timeToMinutes sE) (KS.timeToMinutes r.stop) -
                max (KS.timeToMinutes sS) (KS.timeToMinutes r.start))).sum)) := by
  cases h : p.availableTimeRanges with
  | nil => simp [KS.isSlotAvailable, h]
  | cons r0 rs =>
    simp only [KS.isSlotAvailable, h, min?_map_cons, max?_map_cons, KS.adjustClock,
      Option.some.injEq, decide_eq_true_eq, overlap_foldl_eq_sum,
      List.cons_ne_nil, false_or, exists_and_left, exists_eq_left']
    generalize ((r0 :: rs).map fun r =>
      min (KS.timeToMinutes sE) (KS.timeToMinutes r.stop) -
        max (KS.timeToMinutes sS) (KS.timeToMinutes r.start)).sum = S
    generalize rs.foldl (fun a r => min a (KS.timeToMinutes r.start)) (KS.timeToMinutes r0.start) = b
    generalize rs.foldl (fun a r => max a (KS.timeToMinutes r.stop)) (KS.timeToMinutes r0.stop) = c
    generalize KS.timeToMinutes sS = a
    generalize KS.timeToMinutes sE = d
    split_ifs <;> simp_all
